import Mathlib

/-!
# Verification of the Evo_Flex_Quadruped ANN controller

A shallow embedding of `src/Controllers/ANN/src/ann.cpp` / `ann.h`.

Modelling conventions:
* C++ `double` values are modelled as real numbers (`ℝ`).
* The `unsigned short int` fields of `ANN`, and the `unsigned short int`
  index fields of `Connection`, are modelled as `ℕ` together with the
  explicit truncation `toUShort` (reduction mod 2^16 = 65536) at every
  place the C++ code converts an `int` into an `unsigned short int`.
* The process-wide random source `rand()` is modelled as an explicit
  stream `rnd : ℕ → ℕ` of draws (the c-th connection uses `rnd c`);
  a draw of the C library satisfies `rnd c ≤ RAND_MAX`.
* File I/O is modelled as a token stream `List Tok`: `serialize`
  produces the stream, `deserialize` consumes one.  A read that the C++
  code would leave undefined (missing field, out-of-range value for the
  destination type, invalid enum code) is modelled as `none`.
* The C++ methods mutate `this` and return an `int` error code
  (0 success, -1 failure); they are modelled as functions returning the
  pair (error code, post state).
-/

namespace EvoFlexANN

/-- Truncation of a C++ `int` on assignment into an `unsigned short int`
(conversion is reduction modulo 2^16). -/
def toUShort (n : ℤ) : ℕ := (n % 65536).toNat

/-- `RAND_MAX` of the C library (glibc value). -/
def RAND_MAX : ℕ := 2147483647

/-- `NeuronType` enum of `ann.h` (`INPUT_N = 0`, `OUTPUT_N = 1`,
`HIDDEN_N = 2`, `NUM_NEURON_TYPE = 3`). -/
inductive NeuronType : Type
  | INPUT_N
  | OUTPUT_N
  | HIDDEN_N
  | NUM_NEURON_TYPE
deriving DecidableEq, Repr

/-- Integer code of a neuron type, as written by `serialize`
(`static_cast<int>(type)`). -/
def typeCode : NeuronType → ℤ
  | .INPUT_N => 0
  | .OUTPUT_N => 1
  | .HIDDEN_N => 2
  | .NUM_NEURON_TYPE => 3

/-- Inverse of `typeCode`: the `static_cast<NeuronType>(int)` performed by
`deserialize`; codes outside the enum's range are undefined behaviour and
modelled as `none`. -/
def typeOfCode : ℤ → Option NeuronType
  | 0 => some .INPUT_N
  | 1 => some .OUTPUT_N
  | 2 => some .HIDDEN_N
  | 3 => some .NUM_NEURON_TYPE
  | _ => none

/-- The `Neuron` class of `ann.h`. -/
structure Neuron : Type where
  input_sum : ℝ
  output : ℝ
  type : NeuronType

/-- The `Neuron(NeuronType)` constructor: zero `input_sum` and `output`. -/
def Neuron.make (ntype : NeuronType) : Neuron := ⟨0, 0, ntype⟩

/-- The `Connection` class of `ann.h`; the index fields are
`unsigned short int` in the source. -/
structure Connection : Type where
  source_neuron_idx : ℕ
  target_neuron_idx : ℕ
  weight : ℝ
  data : ℝ

/-- The `Connection(int, int, double)` constructor: the two `int` indices
are truncated into the `unsigned short int` fields, `data` starts at 0. -/
def Connection.make (source target : ℤ) (w : ℝ) : Connection :=
  ⟨toUShort source, toUShort target, w, 0⟩

/-- The (source index, target index, weight) triple of a connection. -/
def Connection.triple (c : Connection) : ℕ × ℕ × ℝ :=
  (c.source_neuron_idx, c.target_neuron_idx, c.weight)

/-- The `ANN` class of `ann.h`.  The five count fields are
`unsigned short int` in the source. -/
structure ANN : Type where
  num_input : ℕ
  num_hidden : ℕ
  num_output : ℕ
  num_iPLUSh : ℕ
  total_num_neurons : ℕ
  neurons : List Neuron
  total_num_connections : ℕ
  connections : List Connection

/-- `sigmoid_AF` of `ann.cpp`: logistic function with saturation guards. -/
noncomputable def sigmoid_AF (x : ℝ) : ℝ :=
  if x < -15 then 0
  else if x > 15 then 1
  else 1 / (1 + Real.exp (-x))

/-- The neuron type the `ANN` constructor assigns to index `n`
("Set neuron type based on index"). -/
def typeForIndex (num_input num_iPLUSh : ℕ) (n : ℕ) : NeuronType :=
  if n < num_input then .INPUT_N
  else if n < num_iPLUSh then .HIDDEN_N
  else .OUTPUT_N

/-- `num_input` as the constructor derives it from the counts vector
(`num_neurons[0]`, truncated into the `unsigned short int` field). -/
def countsIn (num_neurons : List ℤ) : ℕ := toUShort (num_neurons.getD 0 0)

/-- `num_hidden` as the constructor derives it: 0 for a 2-element
counts vector, else `num_neurons[1]` truncated. -/
def countsHid (num_neurons : List ℤ) : ℕ :=
  if num_neurons.length = 2 then 0 else toUShort (num_neurons.getD 1 0)

/-- `num_output` as the constructor derives it: `num_neurons[1]` for a
2-element counts vector, else `num_neurons[2]`, truncated. -/
def countsOut (num_neurons : List ℤ) : ℕ :=
  if num_neurons.length = 2 then toUShort (num_neurons.getD 1 0)
  else toUShort (num_neurons.getD 2 0)

/-- The `total_num_neurons` value the constructor computes from a
counts vector (the same truncating `unsigned short int` arithmetic as
the field assignments of the C++ constructor). -/
def constructTotal (num_neurons : List ℤ) : ℕ :=
  ((countsIn num_neurons + countsHid num_neurons) % 65536 +
    countsOut num_neurons) % 65536

/-- The `ANN(num_neurons, c_src, c_trg, c_wts)` constructor of `ann.cpp`.
`exit(EXIT_FAILURE)` (no network produced) is modelled as `none`.
Field assignments truncate through `toUShort`; the connection loop runs
`total_num_connections` times, i.e. `c_src.size()` truncated to
`unsigned short int`; a connection is accepted when
`0 ≤ index ≤ total_num_neurons` (the source's inclusive bound check). -/
def construct (num_neurons c_src c_trg : List ℤ) (c_wts : List ℝ) :
    Option ANN :=
  if ¬(num_neurons.length = 2 ∨ num_neurons.length = 3) then none
  else if ¬(c_src.length = c_trg.length ∧ c_src.length = c_wts.length) then
    none
  else if ¬((List.range (c_src.length % 65536)).all fun c =>
      decide (0 ≤ c_src.getD c 0 ∧
        c_src.getD c 0 ≤ (constructTotal num_neurons : ℤ) ∧
        0 ≤ c_trg.getD c 0 ∧
        c_trg.getD c 0 ≤ (constructTotal num_neurons : ℤ))) then none
  else some
    { num_input := countsIn num_neurons
      num_hidden := countsHid num_neurons
      num_output := countsOut num_neurons
      num_iPLUSh := (countsIn num_neurons + countsHid num_neurons) % 65536
      total_num_neurons := constructTotal num_neurons
      neurons := (List.range (constructTotal num_neurons)).map fun n =>
        Neuron.make (typeForIndex (countsIn num_neurons)
          ((countsIn num_neurons + countsHid num_neurons) % 65536) n)
      total_num_connections := c_src.length % 65536
      connections := (List.range (c_src.length % 65536)).map fun c =>
        Connection.make (c_src.getD c 0) (c_trg.getD c 0)
          (c_wts.getD c 0) }

/-! ## List access helpers (C++ `operator[]` reads and writes) -/

/-- `neurons[i].output`, reading 0 outside the vector (the C++ read is
undefined there; no in-range behaviour depends on this default). -/
def outAt (ns : List Neuron) (i : ℕ) : ℝ :=
  match ns.get? i with
  | some nu => nu.output
  | none => 0

/-- `neurons[i].input_sum`, with the same out-of-range convention. -/
def inAt (ns : List Neuron) (i : ℕ) : ℝ :=
  match ns.get? i with
  | some nu => nu.input_sum
  | none => 0

/-- `neurons[t].input_sum += d` (no-op outside the vector). -/
noncomputable def addAt : List Neuron → ℕ → ℝ → List Neuron
  | [], _, _ => []
  | nu :: ns, 0, d => { nu with input_sum := nu.input_sum + d } :: ns
  | nu :: ns, t + 1, d => nu :: addAt ns t d

/-! ## `fullyConnectFF` -/

/-- `ANN::fullyConnectFF`: clears the connections, records
`num_hidden * (num_input + num_output)` (truncated into the
`unsigned short int` field), then pushes one `Connection(i, h, 0)` per
(input, hidden) pair and one `Connection(h, o, 0)` per (hidden, output)
pair, iterating hidden indices over `[num_input, num_iPLUSh)` and output
indices over `[num_iPLUSh, total_num_neurons)`. -/
def fullyConnectFF (a : ANN) : ANN :=
  { a with
    total_num_connections :=
      (a.num_hidden * (a.num_input + a.num_output)) % 65536
    connections :=
      ((List.range a.num_input).flatMap fun i : ℕ =>
        (List.range' a.num_input (a.num_iPLUSh - a.num_input)).map
          fun h : ℕ => Connection.make i h 0) ++
      ((List.range' a.num_input (a.num_iPLUSh - a.num_input)).flatMap
        fun h : ℕ =>
        (List.range' a.num_iPLUSh
            (a.total_num_neurons - a.num_iPLUSh)).map fun o : ℕ =>
          Connection.make h o 0) }

/-! ## `randomizeW` -/

/-- The weight-assignment loop of `ANN::randomizeW`: connection `c`
receives `(max - min) * rand() / RAND_MAX + min`, with `rand()`
modelled as the stream `rnd`. -/
noncomputable def randWeights (mn mx : ℝ) (rnd : ℕ → ℕ) : ℕ → List Connection →
    List Connection
  | _, [] => []
  | c, conn :: rest =>
    { conn with
      weight := (mx - mn) * (rnd c : ℝ) / (RAND_MAX : ℝ) + mn } ::
    randWeights mn mx rnd (c + 1) rest

/-- `ANN::randomizeW(min, max)`: returns -1 leaving the network unchanged
when `min ≥ max`, otherwise reassigns every weight and returns 0. -/
noncomputable def randomizeW (a : ANN) (mn mx : ℝ) (rnd : ℕ → ℕ) : ℤ × ANN :=
  if mn ≥ mx then (-1, a)
  else (0, { a with connections := randWeights mn mx rnd 0 a.connections })

/-! ## `setInput` / `getOutput` -/

/-- The assignment loop of `ANN::setInput`: for `n < num_input`,
`neurons[n].output = inputs[n]` (`k` counts the remaining iterations). -/
def setVals : ℕ → List ℝ → List Neuron → List Neuron
  | 0, _, ns => ns
  | _ + 1, [], ns => ns
  | _ + 1, _ :: _, [] => []
  | k + 1, v :: vs, nu :: ns => { nu with output := v } :: setVals k vs ns

/-- `ANN::setInput(inputs)`: returns -1 leaving the network unchanged when
`inputs.size() != num_input`, otherwise writes the input neurons' outputs
and returns 0. -/
def setInput (a : ANN) (inputs : List ℝ) : ℤ × ANN :=
  if inputs.length ≠ a.num_input then (-1, a)
  else (0, { a with neurons := setVals a.num_input inputs a.neurons })

/-- `ANN::getOutput()`: pushes `neurons[n].output` for `n` from
`num_iPLUSh` up to `total_num_neurons`. -/
def getOutput (a : ANN) : List ℝ :=
  (List.range' a.num_iPLUSh (a.total_num_neurons - a.num_iPLUSh)).map
    fun n => outAt a.neurons n

/-! ## `activate` -/

/-- One iteration of the first `ANN::activate` loop: compute
`conn.data = conn.weight * source.output`, add it into
`target.input_sum`, and append the updated connection. -/
noncomputable def connStep (p : List Neuron × List Connection) (c : Connection) :
    List Neuron × List Connection :=
  let d := c.weight * outAt p.1 c.source_neuron_idx
  (addAt p.1 c.target_neuron_idx d, p.2 ++ [{ c with data := d }])

/-- The second `ANN::activate` loop, on the neuron at position `i` and
its successors: every index in `[num_input, tot)` gets
`output = sigmoid_AF(input_sum)` and `input_sum = 0`. -/
noncomputable def actPhase2 (numIn tot : ℕ) : ℕ → List Neuron →
    List Neuron
  | _, [] => []
  | i, nu :: ns =>
    (if numIn ≤ i ∧ i < tot then
      ⟨0, sigmoid_AF nu.input_sum, nu.type⟩
    else nu) :: actPhase2 numIn tot (i + 1) ns

/-- `ANN::activate()`: the connection loop followed by the neuron
activation loop over indices `[num_input, total_num_neurons)`. -/
noncomputable def activate (a : ANN) : ANN :=
  let p := a.connections.foldl connStep (a.neurons, [])
  { a with
    neurons := actPhase2 a.num_input a.total_num_neurons 0 p.1
    connections := p.2 }

/-! ## `serialize` / `deserialize` -/

/-- A token of the newline-delimited text stream: an integer field or a
floating-point field. -/
inductive Tok : Type
  | int (n : ℤ)
  | real (r : ℝ)

/-- The decimal formatting `out_file << weight` applies to a weight:
the default ostream precision keeps only 6 significant digits
(`serialize` is commented "not precise" in the source), so the value
on the wire is the weight rounded to 6 significant decimal digits:
`round(x / 10^(e-5)) * 10^(e-5)` with `e = ⌊log₁₀ |x|⌋`, and 0 is
written as "0". -/
noncomputable def roundSig6 (x : ℝ) : ℝ :=
  if x = 0 then 0
  else (round (x / (10 : ℝ) ^ (Int.log 10 |x| - 5)) : ℝ) *
    (10 : ℝ) ^ (Int.log 10 |x| - 5)

/-- `ANN::serialize`: the five header counts, each neuron's type code,
the recorded connection count, then (source, target, weight) per
connection; the weight goes through the stream's 6-significant-digit
decimal formatting (`roundSig6`). -/
noncomputable def serialize (a : ANN) : List Tok :=
  [Tok.int a.num_input, Tok.int a.num_hidden, Tok.int a.num_output,
    Tok.int a.num_iPLUSh, Tok.int a.total_num_neurons] ++
  a.neurons.map (fun nu => Tok.int (typeCode nu.type)) ++
  [Tok.int a.total_num_connections] ++
  a.connections.flatMap fun c =>
    [Tok.int c.source_neuron_idx, Tok.int c.target_neuron_idx,
      Tok.real (roundSig6 c.weight)]

/-- `in_file >> x` for an `unsigned short int` destination: an integer
token within the type's range; anything else is modelled as `none`. -/
def readUShort : List Tok → Option (ℕ × List Tok)
  | Tok.int k :: ts =>
    if 0 ≤ k ∧ k < 65536 then some (toUShort k, ts) else none
  | _ => none

/-- `in_file >> ntype` followed by `static_cast<NeuronType>(ntype)`. -/
def readType : List Tok → Option (NeuronType × List Tok)
  | Tok.int k :: ts =>
    match typeOfCode k with
    | some t => some (t, ts)
    | none => none
  | _ => none

/-- `in_file >> w` for a `double` destination. -/
def readReal : List Tok → Option (ℝ × List Tok)
  | Tok.real r :: ts => some (r, ts)
  | _ => none

/-- The neuron-reading loop of `ANN::deserialize`: `n` type codes, each
turned into a fresh `Neuron`. -/
def readNeurons : ℕ → List Tok → Option (List Neuron × List Tok)
  | 0, ts => some ([], ts)
  | n + 1, ts =>
    (readType ts).bind fun p1 =>
    (readNeurons n p1.2).bind fun p2 =>
    some (Neuron.make p1.1 :: p2.1, p2.2)

/-- The connection-reading loop of `ANN::deserialize`: `n` triples of
(source, target, weight), each turned into a `Connection`. -/
def readConns : ℕ → List Tok → Option (List Connection × List Tok)
  | 0, ts => some ([], ts)
  | n + 1, ts =>
    (readUShort ts).bind fun p1 =>
    (readUShort p1.2).bind fun p2 =>
    (readReal p2.2).bind fun p3 =>
    (readConns n p3.2).bind fun p4 =>
    some (Connection.make p1.1 p2.1 p3.1 :: p4.1, p4.2)

/-- `ANN::deserialize`: reads the five header counts verbatim, then
`total_num_neurons` type codes, then the connection count and that many
triples.  The resulting network state depends only on the stream (the
prior `this` state is fully replaced). -/
def deserialize (ts : List Tok) : Option ANN :=
  (readUShort ts).bind fun p1 =>
  (readUShort p1.2).bind fun p2 =>
  (readUShort p2.2).bind fun p3 =>
  (readUShort p3.2).bind fun p4 =>
  (readUShort p4.2).bind fun p5 =>
  (readNeurons p5.1 p5.2).bind fun p6 =>
  (readUShort p6.2).bind fun p7 =>
  (readConns p7.1 p7.2).bind fun p8 =>
  some
    { num_input := p1.1
      num_hidden := p2.1
      num_output := p3.1
      num_iPLUSh := p4.1
      total_num_neurons := p5.1
      neurons := p6.1
      total_num_connections := p7.1
      connections := p8.1 }

/-! ## Well-formedness -/

/-- State invariants every network produced by the C++ code satisfies
(the count fields are `unsigned short int`, the neuron/connection
vectors have the recorded sizes, and connection index fields are
`unsigned short int`). -/
def WfSer (a : ANN) : Prop :=
  a.neurons.length = a.total_num_neurons ∧
  a.connections.length = a.total_num_connections ∧
  a.num_input < 65536 ∧ a.num_hidden < 65536 ∧ a.num_output < 65536 ∧
  a.num_iPLUSh < 65536 ∧ a.total_num_neurons < 65536 ∧
  a.total_num_connections < 65536 ∧
  ∀ c ∈ a.connections,
    c.source_neuron_idx < 65536 ∧ c.target_neuron_idx < 65536

/-- The structural invariant maintained by every operation of the code:
consistent count fields (no truncation pending), a neuron vector of the
recorded size whose types follow the index layout, and connection data
compatible with the `unsigned short int` fields. -/
def Inv (a : ANN) : Prop :=
  a.num_iPLUSh = a.num_input + a.num_hidden ∧
  a.total_num_neurons = a.num_iPLUSh + a.num_output ∧
  a.neurons.length = a.total_num_neurons ∧
  a.num_input < 65536 ∧ a.num_hidden < 65536 ∧ a.num_output < 65536 ∧
  a.num_iPLUSh < 65536 ∧ a.total_num_neurons < 65536 ∧
  a.total_num_connections < 65536 ∧
  a.total_num_connections ≤ a.connections.length ∧
  (∀ c ∈ a.connections,
    c.source_neuron_idx < 65536 ∧ c.target_neuron_idx < 65536) ∧
  (∀ n nu, a.neurons.get? n = some nu →
    nu.type = typeForIndex a.num_input a.num_iPLUSh n)

/-- Networks reachable through any sequence of the code's operations:
construction, fully-connect, weight randomization, input binding,
activation, and restoration from a stream persisted from a reachable
network. -/
inductive Reach : ANN → Prop
  | ofConstruct (num_neurons c_src c_trg : List ℤ) (c_wts : List ℝ)
      (a : ANN) : construct num_neurons c_src c_trg c_wts = some a →
      Reach a
  | ofFullyConnect (a : ANN) : Reach a → Reach (fullyConnectFF a)
  | ofRandomize (a : ANN) (mn mx : ℝ) (rnd : ℕ → ℕ) : Reach a →
      Reach (randomizeW a mn mx rnd).2
  | ofSetInput (a : ANN) (inputs : List ℝ) : Reach a →
      Reach (setInput a inputs).2
  | ofActivate (a : ANN) : Reach a → Reach (activate a)
  | ofDeserialize (a b : ANN) : Reach a →
      deserialize (serialize a) = some b → Reach b

/-- As `Reach`, but every construction uses a counts vector whose
interpreted counts sum below 2^16, so no `unsigned short int`
truncation occurs in the constructor's derived fields. -/
inductive ReachBounded : ANN → Prop
  | ofConstruct (num_neurons c_src c_trg : List ℤ) (c_wts : List ℝ)
      (a : ANN) : construct num_neurons c_src c_trg c_wts = some a →
      countsIn num_neurons + countsHid num_neurons +
        countsOut num_neurons < 65536 → ReachBounded a
  | ofFullyConnect (a : ANN) : ReachBounded a →
      ReachBounded (fullyConnectFF a)
  | ofRandomize (a : ANN) (mn mx : ℝ) (rnd : ℕ → ℕ) : ReachBounded a →
      ReachBounded (randomizeW a mn mx rnd).2
  | ofSetInput (a : ANN) (inputs : List ℝ) : ReachBounded a →
      ReachBounded (setInput a inputs).2
  | ofActivate (a : ANN) : ReachBounded a → ReachBounded (activate a)
  | ofDeserialize (a b : ANN) : ReachBounded a →
      deserialize (serialize a) = some b → ReachBounded b

/-! ## Concrete networks used in the tests below -/

/-- The network with 1 input, 0 hidden, 1 output neurons and a single
connection input→output of weight 1 (the specification's concrete
scenario); exactly the state `construct [1,1] [0] [1] [1]` produces. -/
def net101 : ANN :=
  { num_input := 1
    num_hidden := 0
    num_output := 1
    num_iPLUSh := 1
    total_num_neurons := 2
    neurons := [Neuron.make .INPUT_N, Neuron.make .OUTPUT_N]
    total_num_connections := 1
    connections := [⟨0, 1, 1, 0⟩] }

/-- `net101` with the single connection's weight set to 1/3, exactly
the state `construct [1,1] [0] [1] [1/3]` produces; 1/3 does not
survive the stream's 6-significant-digit weight formatting. -/
noncomputable def netThird : ANN :=
  { num_input := 1
    num_hidden := 0
    num_output := 1
    num_iPLUSh := 1
    total_num_neurons := 2
    neurons := [Neuron.make .INPUT_N, Neuron.make .OUTPUT_N]
    total_num_connections := 1
    connections := [⟨0, 1, 1 / 3, 0⟩] }

/-- A 1-input, 1-hidden, 1-output chain: connections 0→1 and 1→2, both
of weight 1 — a strictly feedforward two-hop topology. -/
def net111 : ANN :=
  { num_input := 1
    num_hidden := 1
    num_output := 1
    num_iPLUSh := 2
    total_num_neurons := 3
    neurons := [Neuron.make .INPUT_N, Neuron.make .HIDDEN_N,
      Neuron.make .OUTPUT_N]
    total_num_connections := 2
    connections := [⟨0, 1, 1, 0⟩, ⟨1, 2, 1, 0⟩] }

/-- The 2-input, 2-hidden, 1-output network with no connections, as
`construct [2,2,1] [] [] []` produces it. -/
def net221 : ANN :=
  { num_input := 2
    num_hidden := 2
    num_output := 1
    num_iPLUSh := 4
    total_num_neurons := 5
    neurons := (List.range 5).map fun n =>
      Neuron.make (typeForIndex 2 4 n)
    total_num_connections := 0
    connections := [] }

/-- `net221` after `fullyConnectFF` and `randomizeW(-1, 1)` with the
rand() draws 0, 1, 2, …: a fully connected 2-2-1 network with
randomized weights. -/
noncomputable def demo221 : ANN :=
  (randomizeW (fullyConnectFF net221) (-1) 1 fun j => j).2

/-- The network `construct [60000, 0, 60000] [] [] []` produces: the
requested 120000 neurons overflow the `unsigned short int`
`total_num_neurons` field, which wraps to 54464. -/
def bigNet : ANN :=
  { num_input := 60000
    num_hidden := 0
    num_output := 60000
    num_iPLUSh := 60000
    total_num_neurons := 54464
    neurons := (List.range 54464).map fun n =>
      Neuron.make (typeForIndex 60000 60000 n)
    total_num_connections := 0
    connections := [] }

/-! ## Characterization helpers (not part of the source embedding) -/

/-- Value of `conn.data` computed by the first `activate` loop, given the
neuron outputs `base` (outputs do not change during that loop). -/
noncomputable def dataOf (base : List Neuron) (cs : List Connection) :
    List Connection :=
  cs.map fun c =>
    { c with data := c.weight * outAt base c.source_neuron_idx }

/-- Accumulation of the first `activate` loop into the neurons, with the
outputs read from the fixed list `base`. -/
noncomputable def bumpF (base ns : List Neuron) (cs : List Connection) :
    List Neuron :=
  cs.foldl
    (fun m c =>
      addAt m c.target_neuron_idx
        (c.weight * outAt base c.source_neuron_idx)) ns

/-! ## Basic lemmas about the list helpers -/

theorem outAt_eq_none {ns : List Neuron} {i : ℕ} (h : ns.get? i = none) :
    outAt ns i = 0 := by
  unfold outAt
  rw [h]

theorem outAt_eq_some {ns : List Neuron} {i : ℕ} {nu : Neuron}
    (h : ns.get? i = some nu) : outAt ns i = nu.output := by
  unfold outAt
  rw [h]

theorem inAt_eq_some {ns : List Neuron} {i : ℕ} {nu : Neuron}
    (h : ns.get? i = some nu) : inAt ns i = nu.input_sum := by
  unfold inAt
  rw [h]

theorem addAt_length (ns : List Neuron) (t : ℕ) (d : ℝ) :
    (addAt ns t d).length = ns.length := by
  induction ns generalizing t with
  | nil => rfl
  | cons nu ns ih =>
    cases t with
    | zero => rfl
    | succ t => simpa [addAt] using ih t

theorem get?_addAt (ns : List Neuron) (t : ℕ) (d : ℝ) (n : ℕ) :
    (addAt ns t d).get? n = (ns.get? n).map fun nu =>
      if n = t then { nu with input_sum := nu.input_sum + d } else nu := by
  induction ns generalizing t n with
  | nil => simp [addAt]
  | cons nu ns ih =>
    cases t with
    | zero =>
      cases n with
      | zero => simp [addAt]
      | succ n => simp [addAt]
    | succ t =>
      cases n with
      | zero => simp [addAt]
      | succ n => simpa [addAt] using ih t n

theorem outAt_addAt (ns : List Neuron) (t : ℕ) (d : ℝ) (i : ℕ) :
    outAt (addAt ns t d) i = outAt ns i := by
  unfold outAt
  rw [get?_addAt]
  cases h : ns.get? i with
  | none => rfl
  | some nu => by_cases hi : i = t <;> simp [hi]

theorem inAt_addAt (ns : List Neuron) (t : ℕ) (d : ℝ) (i : ℕ) :
    inAt (addAt ns t d) i =
      if i = t ∧ i < ns.length then inAt ns i + d else inAt ns i := by
  unfold inAt
  rw [get?_addAt]
  cases h : ns.get? i with
  | none =>
    have : ¬ i < ns.length := by
      simpa [List.get?_eq_none] using List.get?_eq_none.mp h
    simp [this]
  | some nu =>
    have hlt : i < ns.length := (List.get?_eq_some.mp h).1
    by_cases hi : i = t
    · subst hi
      simp [hlt]
    · simp [hi]

/-! ## First `activate` loop: characterization of the fold -/

theorem outAt_bumpF (base : List Neuron) (cs : List Connection)
    (ns : List Neuron) (i : ℕ) : outAt (bumpF base ns cs) i = outAt ns i := by
  induction cs generalizing ns with
  | nil => rfl
  | cons c cs ih => simpa [bumpF, outAt_addAt] using ih (addAt ns _ _)

theorem bumpF_length (base : List Neuron) (cs : List Connection)
    (ns : List Neuron) : (bumpF base ns cs).length = ns.length := by
  induction cs generalizing ns with
  | nil => rfl
  | cons c cs ih =>
    simpa [bumpF, addAt_length] using ih (addAt ns _ _)

theorem bumpF_congr (base₁ base₂ ns : List Neuron) (cs : List Connection)
    (h : ∀ i, outAt base₁ i = outAt base₂ i) :
    bumpF base₁ ns cs = bumpF base₂ ns cs := by
  induction cs generalizing ns with
  | nil => rfl
  | cons c cs ih =>
    simp only [bumpF, List.foldl_cons, h]

theorem dataOf_congr (base₁ base₂ : List Neuron) (cs : List Connection)
    (h : ∀ i, outAt base₁ i = outAt base₂ i) :
    dataOf base₁ cs = dataOf base₂ cs := by
  simp [dataOf, h]

theorem foldl_connStep (cs : List Connection) (ns : List Neuron)
    (acc : List Connection) :
    cs.foldl connStep (ns, acc) = (bumpF ns ns cs, acc ++ dataOf ns cs) := by
  induction cs generalizing ns acc with
  | nil => simp [bumpF, dataOf]
  | cons c cs ih =>
    have hout : ∀ i,
        outAt (addAt ns c.target_neuron_idx
          (c.weight * outAt ns c.source_neuron_idx)) i = outAt ns i :=
      fun i => outAt_addAt ns _ _ i
    calc (c :: cs).foldl connStep (ns, acc)
        = cs.foldl connStep (connStep (ns, acc) c) := rfl
      _ = (bumpF ns ns (c :: cs), acc ++ dataOf ns (c :: cs)) := by
          rw [show connStep (ns, acc) c =
              (addAt ns c.target_neuron_idx
                (c.weight * outAt ns c.source_neuron_idx),
               acc ++ [{ c with
                 data := c.weight * outAt ns c.source_neuron_idx }]) from rfl]
          rw [ih]
          refine Prod.ext ?_ ?_
          · show bumpF (addAt ns _ _) (addAt ns _ _) cs = _
            rw [bumpF_congr _ ns _ cs hout]
            rfl
          · show _ ++ dataOf (addAt ns _ _) cs = _
            rw [dataOf_congr _ ns cs hout]
            simp [dataOf]

theorem inAt_bumpF (base : List Neuron) (cs : List Connection)
    (ns : List Neuron) (n : ℕ) (hn : n < ns.length) :
    inAt (bumpF base ns cs) n = inAt ns n +
      (cs.map fun c =>
        if c.target_neuron_idx = n then
          c.weight * outAt base c.source_neuron_idx
        else 0).sum := by
  induction cs generalizing ns with
  | nil => simp [bumpF]
  | cons c cs ih =>
    have hlen : n < (addAt ns c.target_neuron_idx
        (c.weight * outAt base c.source_neuron_idx)).length := by
      simpa [addAt_length] using hn
    have := ih (addAt ns c.target_neuron_idx
      (c.weight * outAt base c.source_neuron_idx)) hlen
    simp only [bumpF, List.foldl_cons] at this ⊢
    rw [this, inAt_addAt]
    by_cases hc : c.target_neuron_idx = n
    · simp [hc, hn]
      ring
    · have : ¬ (n = c.target_neuron_idx ∧ n < ns.length) := by
        intro h
        exact hc h.1.symm
      simp [hc, this]

theorem type_get?_bumpF (base : List Neuron) (cs : List Connection)
    (ns : List Neuron) (n : ℕ) :
    ((bumpF base ns cs).get? n).map Neuron.type =
      (ns.get? n).map Neuron.type := by
  induction cs generalizing ns with
  | nil => rfl
  | cons c cs ih =>
    have step : ((addAt ns c.target_neuron_idx
        (c.weight * outAt base c.source_neuron_idx)).get? n).map Neuron.type
        = (ns.get? n).map Neuron.type := by
      rw [get?_addAt]
      cases h : ns.get? n with
      | none => rfl
      | some nu => by_cases hn : n = c.target_neuron_idx <;> simp [hn]
    simpa [bumpF] using (ih (addAt ns _ _)).trans step

/-! ## Second `activate` loop -/

theorem actPhase2_length (numIn tot : ℕ) (ns : List Neuron) (i : ℕ) :
    (actPhase2 numIn tot i ns).length = ns.length := by
  induction ns generalizing i with
  | nil => rfl
  | cons nu ns ih => simpa [actPhase2] using ih (i + 1)

theorem get?_actPhase2 (numIn tot : ℕ) (ns : List Neuron) (i n : ℕ) :
    (actPhase2 numIn tot i ns).get? n = (ns.get? n).map fun nu =>
      if numIn ≤ i + n ∧ i + n < tot then
        ⟨0, sigmoid_AF nu.input_sum, nu.type⟩
      else nu := by
  induction ns generalizing i n with
  | nil => simp [actPhase2]
  | cons nu ns ih =>
    cases n with
    | zero => simp [actPhase2]
    | succ n =>
      have harith : i + 1 + n = i + (n + 1) := by omega
      simp only [actPhase2, List.get?_cons_succ]
      rw [ih (i + 1) n, harith]

/-! ## `setVals` lemmas -/

theorem setVals_length (k : ℕ) (vs : List ℝ) (ns : List Neuron) :
    (setVals k vs ns).length = ns.length := by
  induction k generalizing vs ns with
  | zero => rfl
  | succ k ih =>
    cases vs with
    | nil => rfl
    | cons v vs =>
      cases ns with
      | nil => rfl
      | cons nu ns => simpa [setVals] using ih vs ns

theorem get?_setVals (k : ℕ) (vs : List ℝ) (ns : List Neuron)
    (h : vs.length = k) (n : ℕ) :
    (setVals k vs ns).get? n = (ns.get? n).map fun nu =>
      if n < k then { nu with output := vs.getD n 0 } else nu := by
  induction k generalizing vs ns n with
  | zero => simp [setVals]
  | succ k ih =>
    cases vs with
    | nil => simp at h
    | cons v vs =>
      cases ns with
      | nil => simp [setVals]
      | cons nu ns =>
        cases n with
        | zero => simp [setVals]
        | succ n =>
          have h' : vs.length = k := by simpa using h
          simp only [setVals, List.get?_cons_succ]
          rw [ih vs ns h' n]
          simp [Nat.succ_lt_succ_iff]

/-! ## `randWeights` lemmas -/

theorem randWeights_length (mn mx : ℝ) (rnd : ℕ → ℕ) (i : ℕ)
    (cs : List Connection) :
    (randWeights mn mx rnd i cs).length = cs.length := by
  induction cs generalizing i with
  | nil => rfl
  | cons c cs ih => simpa [randWeights] using ih (i + 1)

theorem randWeights_weight_bounds (mn mx : ℝ) (h : mn < mx) (rnd : ℕ → ℕ)
    (hr : ∀ j, rnd j ≤ RAND_MAX) (cs : List Connection) (i : ℕ) :
    ∀ c' ∈ randWeights mn mx rnd i cs, mn ≤ c'.weight ∧ c'.weight ≤ mx := by
  induction cs generalizing i with
  | nil => simp [randWeights]
  | cons c cs ih =>
    intro c' hc'
    rcases (by simpa [randWeights] using hc' :
        c' = { c with
          weight := (mx - mn) * (rnd i : ℝ) / (RAND_MAX : ℝ) + mn } ∨
        c' ∈ randWeights mn mx rnd (i + 1) cs) with hc' | hc'
    · subst hc'
      have hRM : (0 : ℝ) < (RAND_MAX : ℝ) := by norm_num [RAND_MAX]
      have h0 : (0 : ℝ) ≤ (rnd i : ℝ) := Nat.cast_nonneg _
      have h1 : ((rnd i : ℝ)) ≤ (RAND_MAX : ℝ) := by
        exact_mod_cast hr i
      have hq0 : (0 : ℝ) ≤ (rnd i : ℝ) / (RAND_MAX : ℝ) :=
        div_nonneg h0 hRM.le
      have hq1 : (rnd i : ℝ) / (RAND_MAX : ℝ) ≤ 1 :=
        (div_le_one hRM).mpr h1
      constructor
      · show mn ≤ (mx - mn) * (rnd i : ℝ) / (RAND_MAX : ℝ) + mn
        rw [mul_div_assoc]
        nlinarith
      · show (mx - mn) * (rnd i : ℝ) / (RAND_MAX : ℝ) + mn ≤ mx
        rw [mul_div_assoc]
        nlinarith
    · exact ih (i + 1) c' hc'

theorem randWeights_triple (mn mx : ℝ) (rnd : ℕ → ℕ) (i : ℕ)
    (cs : List Connection) :
    (randWeights mn mx rnd i cs).map
      (fun c => (c.source_neuron_idx, c.target_neuron_idx)) =
    cs.map (fun c => (c.source_neuron_idx, c.target_neuron_idx)) := by
  induction cs generalizing i with
  | nil => rfl
  | cons c cs ih => simpa [randWeights] using ih (i + 1)

/-! ## `activate` characterization -/

theorem activate_neurons (a : ANN) :
    (activate a).neurons = actPhase2 a.num_input a.total_num_neurons 0
      (bumpF a.neurons a.neurons a.connections) := by
  simp [activate, foldl_connStep]

theorem activate_connections (a : ANN) :
    (activate a).connections = dataOf a.neurons a.connections := by
  simp [activate, foldl_connStep]

theorem activate_counts (a : ANN) :
    (activate a).num_input = a.num_input ∧
    (activate a).num_hidden = a.num_hidden ∧
    (activate a).num_output = a.num_output ∧
    (activate a).num_iPLUSh = a.num_iPLUSh ∧
    (activate a).total_num_neurons = a.total_num_neurons ∧
    (activate a).total_num_connections = a.total_num_connections := by
  simp [activate]

theorem activate_neurons_length (a : ANN) :
    (activate a).neurons.length = a.neurons.length := by
  rw [activate_neurons, actPhase2_length, bumpF_length]

/-- Outputs of input neurons (indices `< num_input`) are untouched by
`activate`; indices at or beyond `total_num_neurons` are untouched as
well. -/
theorem outAt_activate_of_lt (a : ANN) (n : ℕ)
    (h : n < a.num_input ∨ a.total_num_neurons ≤ n) :
    outAt (activate a).neurons n = outAt a.neurons n := by
  have hb : outAt (bumpF a.neurons a.neurons a.connections) n =
      outAt a.neurons n := outAt_bumpF _ _ _ _
  have hcond : ¬ (a.num_input ≤ 0 + n ∧ 0 + n < a.total_num_neurons) := by
    omega
  rw [activate_neurons]
  cases hg : (bumpF a.neurons a.neurons a.connections).get? n with
  | none =>
    have hnone : (actPhase2 a.num_input a.total_num_neurons 0
        (bumpF a.neurons a.neurons a.connections)).get? n = none := by
      rw [get?_actPhase2, hg]
      rfl
    rw [outAt_eq_none hnone, ← hb, outAt_eq_none hg]
  | some nu =>
    have hsome : (actPhase2 a.num_input a.total_num_neurons 0
        (bumpF a.neurons a.neurons a.connections)).get? n = some nu := by
      have hcond' : ¬ (a.num_input ≤ n ∧ n < a.total_num_neurons) := by
        omega
      rw [get?_actPhase2, hg]
      simp [hcond']
    rw [outAt_eq_some hsome, ← hb, outAt_eq_some hg]

/-! ## Serialization round trip -/

theorem toUShort_coe (n : ℕ) (h : n < 65536) : toUShort (n : ℤ) = n := by
  unfold toUShort
  omega

theorem readUShort_int (n : ℕ) (h : n < 65536) (ts : List Tok) :
    readUShort (Tok.int (n : ℤ) :: ts) = some (n, ts) := by
  have h0 : (0 : ℤ) ≤ (n : ℤ) ∧ (n : ℤ) < 65536 := by omega
  simp [readUShort, h0, toUShort_coe n h]

theorem typeOfCode_typeCode (t : NeuronType) :
    typeOfCode (typeCode t) = some t := by
  cases t <;> rfl

theorem readNeurons_roundtrip (ns : List Neuron) (rest : List Tok) :
    readNeurons ns.length
      ((ns.map fun nu => Tok.int (typeCode nu.type)) ++ rest) =
    some (ns.map fun nu => Neuron.make nu.type, rest) := by
  induction ns with
  | nil => simp [readNeurons]
  | cons nu ns ih =>
    have hstream : ((nu :: ns).map fun x => Tok.int (typeCode x.type))
        ++ rest = Tok.int (typeCode nu.type) ::
        ((ns.map fun x => Tok.int (typeCode x.type)) ++ rest) := by
      simp
    rw [List.length_cons, hstream]
    show (readType _).bind _ = _
    rw [show readType (Tok.int (typeCode nu.type) ::
        ((ns.map fun x => Tok.int (typeCode x.type)) ++ rest)) =
        some (nu.type,
          (ns.map fun x => Tok.int (typeCode x.type)) ++ rest) from by
      simp [readType, typeOfCode_typeCode]]
    rw [Option.some_bind, ih, Option.some_bind]
    simp

theorem readConns_roundtrip (cs : List Connection) (rest : List Tok)
    (h : ∀ c ∈ cs,
      c.source_neuron_idx < 65536 ∧ c.target_neuron_idx < 65536) :
    readConns cs.length
      ((cs.flatMap fun c =>
        [Tok.int c.source_neuron_idx, Tok.int c.target_neuron_idx,
          Tok.real (roundSig6 c.weight)]) ++ rest) =
    some (cs.map fun c =>
      ⟨c.source_neuron_idx, c.target_neuron_idx, roundSig6 c.weight, 0⟩, rest) := by
  induction cs with
  | nil => simp [readConns]
  | cons c cs ih =>
    obtain ⟨hs, ht⟩ := h c (List.mem_cons_self c cs)
    have hrest := ih fun c' hc' => h c' (List.mem_cons_of_mem c hc')
    have hstream : ((c :: cs).flatMap fun c =>
        [Tok.int c.source_neuron_idx, Tok.int c.target_neuron_idx,
          Tok.real (roundSig6 c.weight)]) ++ rest =
        Tok.int (c.source_neuron_idx : ℤ) ::
        Tok.int (c.target_neuron_idx : ℤ) :: Tok.real (roundSig6 c.weight) ::
        ((cs.flatMap fun c =>
          [Tok.int c.source_neuron_idx, Tok.int c.target_neuron_idx,
            Tok.real (roundSig6 c.weight)]) ++ rest) := by
      simp
    rw [List.length_cons, hstream]
    show (readUShort _).bind _ = _
    rw [readUShort_int _ hs, Option.some_bind]
    rw [readUShort_int _ ht, Option.some_bind]
    rw [show readReal (Tok.real (roundSig6 c.weight) ::
        ((cs.flatMap fun c =>
          [Tok.int c.source_neuron_idx, Tok.int c.target_neuron_idx,
            Tok.real (roundSig6 c.weight)]) ++ rest)) =
        some (roundSig6 c.weight, (cs.flatMap fun c =>
          [Tok.int c.source_neuron_idx, Tok.int c.target_neuron_idx,
            Tok.real (roundSig6 c.weight)]) ++ rest) from rfl, Option.some_bind]
    rw [hrest, Option.some_bind]
    simp [Connection.make, toUShort_coe _ hs, toUShort_coe _ ht]

theorem deserialize_serialize (a : ANN) (h : WfSer a) :
    deserialize (serialize a) = some
      { a with
        neurons := a.neurons.map fun nu => Neuron.make nu.type
        connections := a.connections.map fun c =>
          ⟨c.source_neuron_idx, c.target_neuron_idx, roundSig6 c.weight, 0⟩ } := by
  obtain ⟨hn, hc, h1, h2, h3, h4, h5, h6, h7⟩ := h
  have hstream : serialize a =
      Tok.int (a.num_input : ℤ) :: Tok.int (a.num_hidden : ℤ) ::
      Tok.int (a.num_output : ℤ) :: Tok.int (a.num_iPLUSh : ℤ) ::
      Tok.int (a.total_num_neurons : ℤ) ::
      ((a.neurons.map fun nu => Tok.int (typeCode nu.type)) ++
        (Tok.int (a.total_num_connections : ℤ) ::
          (a.connections.flatMap fun c =>
            [Tok.int c.source_neuron_idx, Tok.int c.target_neuron_idx,
              Tok.real (roundSig6 c.weight)]))) := by
    simp [serialize]
  rw [hstream]
  rw [show (Tok.int (a.total_num_connections : ℤ) ::
      (a.connections.flatMap fun c =>
        [Tok.int c.source_neuron_idx, Tok.int c.target_neuron_idx,
          Tok.real (roundSig6 c.weight)])) =
      [Tok.int (a.total_num_connections : ℤ)] ++
      ((a.connections.flatMap fun c =>
        [Tok.int c.source_neuron_idx, Tok.int c.target_neuron_idx,
          Tok.real (roundSig6 c.weight)]) ++ []) from by simp]
  unfold deserialize
  rw [readUShort_int _ h1, Option.some_bind]
  rw [readUShort_int _ h2, Option.some_bind]
  rw [readUShort_int _ h3, Option.some_bind]
  rw [readUShort_int _ h4, Option.some_bind]
  rw [readUShort_int _ h5, Option.some_bind]
  rw [← hn, readNeurons_roundtrip, Option.some_bind]
  simp only [List.singleton_append]
  rw [readUShort_int _ h6, Option.some_bind]
  rw [← hc, readConns_roundtrip _ _ h7, Option.some_bind]

/-! ## `randomizeW` case analysis -/

theorem randomizeW_of_lt (a : ANN) (mn mx : ℝ) (rnd : ℕ → ℕ)
    (h : mn < mx) :
    randomizeW a mn mx rnd =
      (0, { a with connections := randWeights mn mx rnd 0 a.connections })
    := by
  simp [randomizeW, not_le.mpr h]

theorem randomizeW_of_ge (a : ANN) (mn mx : ℝ) (rnd : ℕ → ℕ)
    (h : mn ≥ mx) : randomizeW a mn mx rnd = (-1, a) := by
  simp [randomizeW, h]

theorem randWeights_mem (mn mx : ℝ) (rnd : ℕ → ℕ) (cs : List Connection)
    (i : ℕ) :
    ∀ c' ∈ randWeights mn mx rnd i cs, ∃ c ∈ cs,
      c'.source_neuron_idx = c.source_neuron_idx ∧
      c'.target_neuron_idx = c.target_neuron_idx := by
  induction cs generalizing i with
  | nil => simp [randWeights]
  | cons c cs ih =>
    intro c' hc'
    rcases (by simpa [randWeights] using hc' :
        c' = { c with
          weight := (mx - mn) * (rnd i : ℝ) / (RAND_MAX : ℝ) + mn } ∨
        c' ∈ randWeights mn mx rnd (i + 1) cs) with hc' | hc'
    · exact ⟨c, List.mem_cons_self c cs, by subst hc'; exact ⟨rfl, rfl⟩⟩
    · obtain ⟨c0, hc0, he⟩ := ih (i + 1) c' hc'
      exact ⟨c0, List.mem_cons_of_mem c hc0, he⟩

/-! ## Claim C7: the activation function -/

/-- C7: `sigmoid_AF` returns exactly 0 for every input `x < -15`,
exactly 1 for every `x > 15`, and `1/(1+e^(-x))` otherwise; in
particular it maps 100 to exactly 1, -100 to exactly 0, and 0 to
exactly 0.5. -/
theorem sigmoid_AF_spec :
    (∀ x : ℝ, x < -15 → sigmoid_AF x = 0) ∧
    (∀ x : ℝ, x > 15 → sigmoid_AF x = 1) ∧
    (∀ x : ℝ, -15 ≤ x → x ≤ 15 →
      sigmoid_AF x = 1 / (1 + Real.exp (-x))) ∧
    sigmoid_AF 100 = 1 ∧ sigmoid_AF (-100) = 0 ∧
    sigmoid_AF 0 = 0.5 := by
  refine ⟨fun x hx => ?_, fun x hx => ?_, fun x hx1 hx2 => ?_, ?_, ?_, ?_⟩
  · rw [sigmoid_AF, if_pos hx]
  · rw [sigmoid_AF, if_neg (by linarith), if_pos hx]
  · rw [sigmoid_AF, if_neg (by linarith), if_neg (by linarith)]
  · rw [sigmoid_AF, if_neg (by norm_num), if_pos (by norm_num)]
  · rw [sigmoid_AF, if_pos (by norm_num)]
  · rw [sigmoid_AF, if_neg (by norm_num), if_neg (by norm_num)]
    rw [neg_zero, Real.exp_zero]
    norm_num

/-- Witness for `sigmoid_AF_spec` at concrete saturating inputs. -/
theorem sigmoid_AF_spec_witness :
    sigmoid_AF (-16) = 0 ∧ sigmoid_AF 16 = 1 :=
  ⟨sigmoid_AF_spec.1 (-16) (by norm_num),
    sigmoid_AF_spec.2.1 16 (by norm_num)⟩

/-! ## Claim C3: `randomizeW` -/

/-- C3 (amended): with `min < max` and rand() draws bounded by
`RAND_MAX`, `randomizeW` succeeds (returns 0) and every resulting
weight lies in the closed interval `[min, max]` (the draw
`rand() = RAND_MAX` makes the weight exactly `max`, so the half-open
interval of the original claim is not guaranteed); with `min ≥ max` it
fails with -1 and the network, hence every connection's weight, is
unchanged. -/
theorem randomizeW_spec (a : ANN) (mn mx : ℝ) (rnd : ℕ → ℕ)
    (hr : ∀ j, rnd j ≤ RAND_MAX) :
    (mn < mx →
      (randomizeW a mn mx rnd).1 = 0 ∧
      ∀ c ∈ (randomizeW a mn mx rnd).2.connections,
        mn ≤ c.weight ∧ c.weight ≤ mx) ∧
    (mn ≥ mx → randomizeW a mn mx rnd = (-1, a)) := by
  constructor
  · intro h
    rw [randomizeW_of_lt a mn mx rnd h]
    exact ⟨rfl, randWeights_weight_bounds mn mx h rnd hr a.connections 0⟩
  · exact randomizeW_of_ge a mn mx rnd

/-- Witness for `randomizeW_spec`: success on `net101` with default
bounds, failure with `min = max = 1`. -/
theorem randomizeW_spec_witness :
    (randomizeW net101 (-1) 1 fun _ : ℕ => 0).1 = 0 ∧
    randomizeW net101 1 1 (fun _ : ℕ => 0) = (-1, net101) := by
  have hr : ∀ j : ℕ, (fun _ : ℕ => 0) j ≤ RAND_MAX := by
    intro j
    norm_num [RAND_MAX]
  exact ⟨((randomizeW_spec net101 (-1) 1 (fun _ => 0) hr).1
      (by norm_num)).1,
    (randomizeW_spec net101 1 1 (fun _ => 0) hr).2 (le_refl 1)⟩

/-- C3 counterexample: on `net101` with `min = 0`, `max = 1` and a
rand() draw equal to `RAND_MAX`, the assigned weight is exactly
`1 = max`, which does not lie in the half-open interval `[0, 1)`
claimed by the specification. -/
theorem randomizeW_max_attained :
    (0 : ℝ) < 1 ∧ (∀ j : ℕ, (fun _ : ℕ => RAND_MAX) j ≤ RAND_MAX) ∧
    (randomizeW net101 0 1 fun _ : ℕ => RAND_MAX).2.connections.map
      Connection.weight = [1] ∧ ¬ ((1 : ℝ) < 1) := by
  refine ⟨by norm_num, fun j => le_refl _, ?_, by norm_num⟩
  rw [randomizeW_of_lt net101 0 1 _ (by norm_num)]
  show (randWeights 0 1 (fun _ : ℕ => RAND_MAX) 0 net101.connections).map
    Connection.weight = [1]
  have hRM : ((RAND_MAX : ℕ) : ℝ) ≠ 0 := by norm_num [RAND_MAX]
  simp [net101, randWeights, Connection.weight, hRM]

/-! ## Claim C9: `setInput` -/

/-- C9: if the values vector's length differs from `num_input`,
`setInput` fails with -1 and the network is unchanged; if it matches,
`setInput` succeeds and assigns each input neuron's `output` the
corresponding value in index order, leaving every other neuron field,
every neuron at index ≥ `num_input`, all connections and all counts
unchanged. -/
theorem setInput_spec (a : ANN) (inputs : List ℝ) :
    (inputs.length ≠ a.num_input → setInput a inputs = (-1, a)) ∧
    (inputs.length = a.num_input →
      (setInput a inputs).1 = 0 ∧
      (setInput a inputs).2.num_input = a.num_input ∧
      (setInput a inputs).2.num_hidden = a.num_hidden ∧
      (setInput a inputs).2.num_output = a.num_output ∧
      (setInput a inputs).2.num_iPLUSh = a.num_iPLUSh ∧
      (setInput a inputs).2.total_num_neurons = a.total_num_neurons ∧
      (setInput a inputs).2.total_num_connections =
        a.total_num_connections ∧
      (setInput a inputs).2.connections = a.connections ∧
      ∀ n, (setInput a inputs).2.neurons.get? n =
        (a.neurons.get? n).map fun nu =>
          if n < a.num_input then { nu with output := inputs.getD n 0 }
          else nu) := by
  constructor
  · intro h
    simp [setInput, h]
  · intro h
    have h2 : setInput a inputs =
        (0, { a with neurons := setVals a.num_input inputs a.neurons })
        := by
      simp [setInput, h]
    rw [h2]
    exact ⟨rfl, rfl, rfl, rfl, rfl, rfl, rfl, rfl,
      fun n => get?_setVals a.num_input inputs a.neurons h n⟩

/-- Witness for `setInput_spec`: failure on an empty input vector and
success on a singleton, both against `net101`. -/
theorem setInput_spec_witness :
    setInput net101 [] = (-1, net101) ∧
    (setInput net101 [(0.25 : ℝ)]).1 = 0 :=
  ⟨(setInput_spec net101 []).1 (by simp [net101]),
    ((setInput_spec net101 [(0.25 : ℝ)]).2 (by simp [net101])).1⟩

/-! ## Claim C6: `fullyConnectFF` -/

theorem length_flatMap_const {α β : Type} (l : List α) (f : α → List β)
    (k : ℕ) (h : ∀ x ∈ l, (f x).length = k) :
    (l.flatMap f).length = l.length * k := by
  induction l with
  | nil => simp
  | cons x l ih =>
    rw [List.flatMap_cons, List.length_append,
      h x (List.mem_cons_self x l),
      ih fun y hy => h y (List.mem_cons_of_mem x hy)]
    simp [Nat.succ_mul, Nat.add_comm]

/-- C6: on a network with consistent counts (I inputs, H hidden,
O outputs), `fullyConnectFF` discards all prior connections and yields
exactly the list of one input→hidden edge per (input, hidden) pair
followed by one hidden→output edge per (hidden, output) pair, each of
weight 0 — `H * (I + O)` connections in total, and none when `H = 0`. -/
theorem fullyConnectFF_spec (a : ANN)
    (h1 : a.num_iPLUSh = a.num_input + a.num_hidden)
    (h2 : a.total_num_neurons = a.num_iPLUSh + a.num_output)
    (h3 : a.total_num_neurons < 65536) :
    (fullyConnectFF a).connections =
      ((List.range a.num_input).flatMap fun i =>
        (List.range a.num_hidden).map fun h =>
          ⟨i, a.num_input + h, 0, 0⟩) ++
      ((List.range a.num_hidden).flatMap fun h =>
        (List.range a.num_output).map fun o =>
          ⟨a.num_input + h, a.num_iPLUSh + o, 0, 0⟩) ∧
    (fullyConnectFF a).connections.length =
      a.num_hidden * (a.num_input + a.num_output) ∧
    (∀ c ∈ (fullyConnectFF a).connections, c.weight = 0) ∧
    (a.num_hidden = 0 → (fullyConnectFF a).connections = []) := by
  have hI : a.num_input ≤ a.num_iPLUSh := by omega
  have hIH : a.num_iPLUSh ≤ a.total_num_neurons := by omega
  have hmk1 : ∀ i < a.num_input, ∀ h < a.num_hidden,
      Connection.make (i : ℤ) ((a.num_input + h : ℕ) : ℤ) 0 =
        (⟨i, a.num_input + h, 0, 0⟩ : Connection) := by
    intro i hi h hh
    unfold Connection.make
    rw [toUShort_coe i (by omega), toUShort_coe (a.num_input + h)
      (by omega)]
  have hmk2 : ∀ h < a.num_hidden, ∀ o < a.num_output,
      Connection.make ((a.num_input + h : ℕ) : ℤ)
          ((a.num_iPLUSh + o : ℕ) : ℤ) 0 =
        (⟨a.num_input + h, a.num_iPLUSh + o, 0, 0⟩ : Connection) := by
    intro h hh o ho
    unfold Connection.make
    rw [toUShort_coe (a.num_input + h) (by omega),
      toUShort_coe (a.num_iPLUSh + o) (by omega)]
  have hconns : (fullyConnectFF a).connections =
      ((List.range a.num_input).flatMap fun i =>
        (List.range a.num_hidden).map fun h =>
          ⟨i, a.num_input + h, 0, 0⟩) ++
      ((List.range a.num_hidden).flatMap fun h =>
        (List.range a.num_output).map fun o =>
          ⟨a.num_input + h, a.num_iPLUSh + o, 0, 0⟩) := by
    show (((List.range a.num_input).flatMap fun i : ℕ =>
        (List.range' a.num_input (a.num_iPLUSh - a.num_input)).map
          fun h : ℕ => Connection.make i h 0) ++
      ((List.range' a.num_input (a.num_iPLUSh - a.num_input)).flatMap
        fun h : ℕ =>
        (List.range' a.num_iPLUSh
            (a.total_num_neurons - a.num_iPLUSh)).map fun o : ℕ =>
          Connection.make h o 0)) = _
    have hr1 : a.num_iPLUSh - a.num_input = a.num_hidden := by omega
    have hr2 : a.total_num_neurons - a.num_iPLUSh = a.num_output := by
      omega
    rw [hr1, hr2, List.range'_eq_map_range a.num_input a.num_hidden,
      List.range'_eq_map_range a.num_iPLUSh a.num_output]
    congr 1
    · apply List.flatMap_congr
      intro i hi
      rw [List.map_map]
      apply List.map_congr_left
      intro h hh
      exact hmk1 i (List.mem_range.mp hi) h (List.mem_range.mp hh)
    · rw [List.flatMap_map]
      apply List.flatMap_congr
      intro h hh
      rw [List.map_map]
      apply List.map_congr_left
      intro o ho
      exact hmk2 h (List.mem_range.mp hh) o (List.mem_range.mp ho)
  refine ⟨hconns, ?_, ?_, ?_⟩
  · rw [hconns, List.length_append,
      length_flatMap_const (List.range a.num_input) _ a.num_hidden
        (fun x _ => by simp),
      length_flatMap_const (List.range a.num_hidden) _ a.num_output
        (fun x _ => by simp)]
    simp [List.length_range]
    ring
  · intro c hc
    rw [hconns] at hc
    rcases List.mem_append.mp hc with hc | hc <;>
    · obtain ⟨x, hx, hcx⟩ := List.mem_flatMap.mp hc
      obtain ⟨y, hy, rfl⟩ := List.mem_map.mp hcx
      rfl
  · intro h0
    rw [hconns, h0]
    simp

/-- Witness for `fullyConnectFF_spec`: the fully connected 2-2-1
network has 2 · (2 + 1) = 6 connections. -/
theorem fullyConnectFF_spec_witness :
    (fullyConnectFF net221).connections.length = 6 := by
  rw [(fullyConnectFF_spec net221 rfl rfl (by norm_num [net221])).2.1]
  rfl

/-! ## Claim C2: constructor index validation -/

/-- C2 (amended): with a valid counts vector and equal-length edge
arrays, construction fails (process exit, no network produced)
whenever a source or target index among the validated entries — the
first `c_src.length mod 2^16` of them, the validation loop's bound
being the `unsigned short int`-truncated connection count — lies
outside the inclusive range `[0, total_num_neurons]`.  An index equal
to `total_num_neurons`, though outside the valid neuron index range
`[0, total_num_neurons)`, is accepted by the legacy inclusive bound
check (see `construct_accepts_total_index`), and entries at positions
at or beyond the truncated count are never validated at all (see
`construct_skips_unvalidated_tail`). -/
theorem construct_rejects_out_of_range (num_neurons c_src c_trg : List ℤ)
    (c_wts : List ℝ)
    (hlen : num_neurons.length = 2 ∨ num_neurons.length = 3)
    (heq : c_src.length = c_trg.length ∧ c_src.length = c_wts.length)
    (c : ℕ) (hc : c < c_src.length % 65536)
    (hbad : c_src.getD c 0 < 0 ∨
      (constructTotal num_neurons : ℤ) < c_src.getD c 0 ∨
      c_trg.getD c 0 < 0 ∨
      (constructTotal num_neurons : ℤ) < c_trg.getD c 0) :
    construct num_neurons c_src c_trg c_wts = none := by
  unfold construct
  rw [if_neg (not_not_intro hlen), if_neg (not_not_intro heq)]
  have hall : ¬ ((List.range (c_src.length % 65536)).all fun k =>
      decide (0 ≤ c_src.getD k 0 ∧
        c_src.getD k 0 ≤ (constructTotal num_neurons : ℤ) ∧
        0 ≤ c_trg.getD k 0 ∧
        c_trg.getD k 0 ≤ (constructTotal num_neurons : ℤ))) = true := by
    intro hall
    have := List.all_eq_true.mp hall c (List.mem_range.mpr hc)
    rw [decide_eq_true_eq] at this
    omega
  rw [if_pos hall]

/-- Witness for `construct_rejects_out_of_range`: a source index of 3
with `total_num_neurons = 2` is rejected. -/
theorem construct_rejects_witness :
    construct [1, 1] [3] [0] [0] = none :=
  construct_rejects_out_of_range [1, 1] [3] [0] [0] (Or.inl rfl)
    ⟨rfl, rfl⟩ 0 (by norm_num)
    (Or.inr (Or.inl (by decide)))

/-- Constructor success when every entry the truncated loop validates
is in (inclusive) range. -/
theorem construct_succeeds_of_validated (num_neurons c_src c_trg :
    List ℤ) (c_wts : List ℝ)
    (hlen : num_neurons.length = 2 ∨ num_neurons.length = 3)
    (heq : c_src.length = c_trg.length ∧ c_src.length = c_wts.length)
    (hok : ∀ c < c_src.length % 65536,
      0 ≤ c_src.getD c 0 ∧
      c_src.getD c 0 ≤ (constructTotal num_neurons : ℤ) ∧
      0 ≤ c_trg.getD c 0 ∧
      c_trg.getD c 0 ≤ (constructTotal num_neurons : ℤ)) :
    (construct num_neurons c_src c_trg c_wts).isSome = true := by
  unfold construct
  rw [if_neg (not_not_intro hlen), if_neg (not_not_intro heq)]
  have hall : ((List.range (c_src.length % 65536)).all fun k =>
      decide (0 ≤ c_src.getD k 0 ∧
        c_src.getD k 0 ≤ (constructTotal num_neurons : ℤ) ∧
        0 ≤ c_trg.getD k 0 ∧
        c_trg.getD k 0 ≤ (constructTotal num_neurons : ℤ))) = true := by
    apply List.all_eq_true.mpr
    intro k hk
    rw [decide_eq_true_eq]
    exact hok k (List.mem_range.mp hk)
  rw [if_neg (not_not_intro hall)]
  rfl

/-- Entries at positions at or beyond `c_src.length mod 2^16` are
never validated: with 65537 edges the truncated loop bound is 1, so
the out-of-range source index 3 (with `total_num_neurons = 2`) at the
last position goes unchecked and construction succeeds. -/
theorem construct_skips_unvalidated_tail :
    ((List.replicate 65536 (0 : ℤ)) ++ [(3 : ℤ)]).getD 65536 0 = 3 ∧
    ¬ ((3 : ℤ) ≤ (constructTotal [1, 1] : ℤ)) ∧
    (construct [1, 1] (List.replicate 65536 (0 : ℤ) ++ [(3 : ℤ)])
      (List.replicate 65537 (0 : ℤ))
      (List.replicate 65537 (0 : ℝ))).isSome = true := by
  have hlen : ((List.replicate 65536 (0 : ℤ)) ++ [(3 : ℤ)]).length =
      65537 := by
    rw [List.length_append, List.length_replicate]
    rfl
  refine ⟨?_, by decide, ?_⟩
  · rw [List.getD_eq_getElem?_getD,
      List.getElem?_append_right (List.length_replicate _ _).le,
      List.length_replicate]
    rfl
  · apply construct_succeeds_of_validated
    · exact Or.inl rfl
    · constructor
      · rw [hlen, List.length_replicate]
      · rw [hlen, List.length_replicate]
    · intro c hc
      rw [hlen] at hc
      have hc0 : c = 0 := by omega
      subst hc0
      have hsrc0 : ((List.replicate 65536 (0 : ℤ)) ++
          [(3 : ℤ)]).getD 0 0 = 0 := by
        rw [List.getD_eq_getElem?_getD,
          List.getElem?_append_left
            (by rw [List.length_replicate]; omega),
          List.getElem?_replicate]
        norm_num
      have htrg0 : (List.replicate 65537 (0 : ℤ)).getD 0 0 = 0 := by
        rw [List.getD_eq_getElem?_getD, List.getElem?_replicate]
        norm_num
      rw [hsrc0, htrg0]
      refine ⟨le_refl 0, by decide, le_refl 0, by decide⟩

/-- C2 counterexample: the constructor accepts a connection whose
source index equals `total_num_neurons` (here 2), although that index
lies outside the valid neuron index range `[0, 2)`: construction
succeeds and produces a network, where the claim requires failure. -/
theorem construct_accepts_total_index :
    (construct [1, 1] [2] [0] [0]).isSome = true ∧ ¬ ((2 : ℕ) < 2) := by
  exact ⟨rfl, by omega⟩

/-! ## Claim C1: serialize/deserialize round trip -/

theorem roundSig6_third : roundSig6 (1 / 3 : ℝ) = 333333 / 1000000 := by
  have hlog : Int.log 10 |(1 / 3 : ℝ)| = -1 := by
    rw [abs_of_pos (by norm_num : (0 : ℝ) < 1 / 3)]
    rw [show (1 / 3 : ℝ) = ((3 : ℝ))⁻¹ by norm_num]
    rw [Int.log_inv]
    rw [show ((3 : ℝ)) = ((3 : ℕ) : ℝ) by norm_num]
    rw [Int.clog_natCast]
    rw [Nat.clog_eq_one (by norm_num) (by norm_num)]
    rfl
  unfold roundSig6
  rw [if_neg (by norm_num : (1 / 3 : ℝ) ≠ 0), hlog]
  have hp : ((10 : ℝ) ^ ((-1 : ℤ) - 5)) = 1 / 1000000 := by
    rw [show ((-1 : ℤ) - 5) = -(6 : ℤ) by norm_num, zpow_neg]
    norm_num
  rw [hp]
  have hdiv : ((1 / 3 : ℝ) / (1 / 1000000)) = 1000000 / 3 := by
    norm_num
  rw [hdiv, round_eq]
  have hfl : ⌊(1000000 / 3 : ℝ) + 1 / 2⌋ = 333333 := by
    apply Int.floor_eq_iff.mpr
    constructor <;> norm_num
  rw [hfl]
  norm_num

/-- C1 (amended): serializing any network satisfying the C++ state
invariants (`WfSer`, which every network the code builds satisfies)
and deserializing the produced text yields identical
`num_input`/`num_hidden`/`num_output` counts, an identical neuron
type sequence, and the (source, target) pairs in identical order —
but each weight is reproduced only to the stream's 6 significant
decimal digits (`roundSig6`, the default ostream precision of
`out_file << weight`).  The full (source, target, weight) triples are
identical exactly when every weight survives that rounding, which
randomized weights in general do not — see
`serialize_roundtrip_weight_cex`. -/
theorem serialize_deserialize_roundtrip (a : ANN) (h : WfSer a) :
    ∃ b, deserialize (serialize a) = some b ∧
      b.num_input = a.num_input ∧ b.num_hidden = a.num_hidden ∧
      b.num_output = a.num_output ∧
      b.neurons.map Neuron.type = a.neurons.map Neuron.type ∧
      b.connections.map Connection.triple = a.connections.map fun c =>
        (c.source_neuron_idx, c.target_neuron_idx, roundSig6 c.weight)
    := by
  refine ⟨_, deserialize_serialize a h, rfl, rfl, rfl, ?_, ?_⟩
  · show (a.neurons.map fun nu => Neuron.make nu.type).map Neuron.type =
      a.neurons.map Neuron.type
    simp [Neuron.make]
  · show (a.connections.map fun c : Connection =>
        (⟨c.source_neuron_idx, c.target_neuron_idx, roundSig6 c.weight, 0⟩ :
          Connection)).map Connection.triple = _
    simp [Connection.triple]

/-- C1 counterexample: on the constructed 1-0-1 network whose single
connection has weight 1/3, the stream stores the 6-significant-digit
decimal 0.333333, so deserializing yields the connection triple
(0, 1, 333333/1000000) instead of (0, 1, 1/3): the round trip does
not reproduce an identical (source, target, weight) sequence. -/
theorem serialize_roundtrip_weight_cex :
    construct [1, 1] [0] [1] [1 / 3] = some netThird ∧
    netThird.connections.map Connection.triple =
      [(0, 1, (1 / 3 : ℝ))] ∧
    (deserialize (serialize netThird)).map
      (fun b => b.connections.map Connection.triple) =
      some [(0, 1, (333333 / 1000000 : ℝ))] ∧
    (333333 / 1000000 : ℝ) ≠ 1 / 3 := by
  have hwf : WfSer netThird := by
    refine ⟨rfl, rfl, by norm_num [netThird], by norm_num [netThird],
      by norm_num [netThird], by norm_num [netThird],
      by norm_num [netThird], by norm_num [netThird], ?_⟩
    intro c hc
    simp only [netThird, List.mem_cons, List.not_mem_nil, or_false]
      at hc
    subst hc
    exact ⟨by norm_num, by norm_num⟩
  refine ⟨rfl, rfl, ?_, by norm_num⟩
  rw [deserialize_serialize netThird hwf]
  simp [netThird, Connection.triple]
  rw [show (3⁻¹ : ℝ) = 1 / 3 by norm_num]
  rw [roundSig6_third]

/-- Witness for `serialize_deserialize_roundtrip`: the 2-2-1 network,
fully connected and with randomized weights (`demo221`), round-trips
up to the weight formatting; `net221` itself is the constructor's
output for counts [2,2,1]. -/
theorem serialize_deserialize_roundtrip_witness :
    construct [2, 2, 1] [] [] [] = some net221 ∧
    ∃ b, deserialize (serialize demo221) = some b ∧
      b.num_input = demo221.num_input ∧
      b.num_hidden = demo221.num_hidden ∧
      b.num_output = demo221.num_output ∧
      b.neurons.map Neuron.type = demo221.neurons.map Neuron.type ∧
      b.connections.map Connection.triple = demo221.connections.map
        fun c => (c.source_neuron_idx, c.target_neuron_idx,
          roundSig6 c.weight) := by
  refine ⟨rfl, serialize_deserialize_roundtrip demo221 ?_⟩
  have hFC : fullyConnectFF net221 = { net221 with
      total_num_connections := 6
      connections := [⟨0, 2, 0, 0⟩, ⟨0, 3, 0, 0⟩, ⟨1, 2, 0, 0⟩,
        ⟨1, 3, 0, 0⟩, ⟨2, 4, 0, 0⟩, ⟨3, 4, 0, 0⟩] } := rfl
  have hd : demo221 = { net221 with
      total_num_connections := 6
      connections := randWeights (-1) 1 (fun j => j) 0
        [⟨0, 2, 0, 0⟩, ⟨0, 3, 0, 0⟩, ⟨1, 2, 0, 0⟩, ⟨1, 3, 0, 0⟩,
          ⟨2, 4, 0, 0⟩, ⟨3, 4, 0, 0⟩] } := by
    unfold demo221
    rw [randomizeW_of_lt _ _ _ _ (by norm_num), hFC]
  rw [hd]
  refine ⟨by simp [net221], ?_, by norm_num [net221], by norm_num [net221],
    by norm_num [net221], by norm_num [net221], by norm_num [net221],
    by norm_num, ?_⟩
  · rw [randWeights_length]
    rfl
  · intro c hc
    obtain ⟨c0, hc0, h1, h2⟩ := randWeights_mem _ _ _ _ _ c hc
    simp only [List.mem_cons, List.not_mem_nil, or_false] at hc0
    rcases hc0 with rfl | rfl | rfl | rfl | rfl | rfl <;> simp [h1, h2]

/-! ## Claim C8: the concrete 1-0-1 scenario -/

/-- C8: the constructor on counts [1,1] with the single connection
input→output of weight 1 produces `net101`, and on that network the
sequence SetInput([0]); Activate(); GetOutput() returns exactly
[0.5]. -/
theorem scenario_101_getOutput_half :
    construct [1, 1] [0] [1] [1] = some net101 ∧
    getOutput (activate (setInput net101 [0]).2) = [0.5] := by
  constructor
  · rfl
  · have hsi : (setInput net101 [0]).2 =
        { net101 with neurons := setVals 1 [0] net101.neurons } := by
      simp [setInput, net101]
    rw [hsi]
    simp only [net101, setVals, Neuron.make, activate, List.foldl_cons,
      List.foldl_nil, connStep, outAt, addAt, actPhase2, getOutput,
      List.get?]
    norm_num [actPhase2, actPhase2_length, getOutput, outAt,
      List.range', sigmoid_AF, Real.exp_zero]

/-! ## Claim C10: the frame effect of `activate` -/

/-- C10: `activate` leaves every connection's source index, target
index and weight unchanged, leaves every input neuron's output
unchanged, and on return every neuron with index ≥ `num_input` has
`input_sum` 0 (stated for every network whose neuron vector is no
longer than `total_num_neurons`, which holds for every state the code
builds); only connection `data` fields, non-input outputs and
`input_sum` fields are mutated. -/
theorem activate_frame (a : ANN)
    (h : a.neurons.length ≤ a.total_num_neurons) :
    (activate a).connections.map Connection.triple =
      a.connections.map Connection.triple ∧
    (∀ n < a.num_input,
      outAt (activate a).neurons n = outAt a.neurons n) ∧
    (∀ n, a.num_input ≤ n → ∀ nu,
      (activate a).neurons.get? n = some nu → nu.input_sum = 0) := by
  refine ⟨?_, ?_, ?_⟩
  · rw [activate_connections]
    simp [dataOf, Connection.triple]
  · intro n hn
    exact outAt_activate_of_lt a n (Or.inl hn)
  · intro n hn nu hnu
    rw [activate_neurons, get?_actPhase2] at hnu
    cases hb : (bumpF a.neurons a.neurons a.connections).get? n with
    | none =>
      rw [hb] at hnu
      simp at hnu
    | some nub =>
      have hlen : n < a.neurons.length := by
        have := (List.get?_eq_some.mp hb).1
        simpa [bumpF_length] using this
      have hcond : a.num_input ≤ 0 + n ∧ 0 + n < a.total_num_neurons :=
        by omega
      rw [hb] at hnu
      have hnu' : (if a.num_input ≤ 0 + n ∧ 0 + n < a.total_num_neurons
          then (⟨0, sigmoid_AF nub.input_sum, nub.type⟩ : Neuron)
          else nub) = nu := by
        simpa using hnu
      rw [← hnu', if_pos hcond]

/-- Witness for `activate_frame` on `net101`. -/
theorem activate_frame_witness :
    net101.neurons.length ≤ net101.total_num_neurons ∧
    (activate net101).connections.map Connection.triple =
      net101.connections.map Connection.triple :=
  ⟨by simp [net101], (activate_frame net101 (by simp [net101])).1⟩

/-! ## Claim C5: consecutive `activate` calls -/

theorem outAt_activate_of_active (a : ANN) (i : ℕ)
    (h1 : a.num_input ≤ i) (h2 : i < a.total_num_neurons)
    (h3 : i < a.neurons.length) :
    outAt (activate a).neurons i =
      sigmoid_AF (inAt (bumpF a.neurons a.neurons a.connections) i) := by
  rw [activate_neurons]
  cases hb : (bumpF a.neurons a.neurons a.connections).get? i with
  | none =>
    have := List.get?_eq_none.mp hb
    rw [bumpF_length] at this
    omega
  | some nub =>
    have hcond : a.num_input ≤ i ∧ i < a.total_num_neurons := ⟨h1, h2⟩
    have hsome : (actPhase2 a.num_input a.total_num_neurons 0
        (bumpF a.neurons a.neurons a.connections)).get? i =
        some ⟨0, sigmoid_AF nub.input_sum, nub.type⟩ := by
      rw [get?_actPhase2, hb]
      simp [hcond]
    rw [outAt_eq_some hsome, inAt_eq_some hb]

theorem inAt_activate_zero (a : ANN) (n : ℕ)
    (h1 : a.num_input ≤ n) (h2 : n < a.total_num_neurons)
    (h3 : n < a.neurons.length) :
    inAt (activate a).neurons n = 0 := by
  rw [activate_neurons]
  cases hb : (bumpF a.neurons a.neurons a.connections).get? n with
  | none =>
    have := List.get?_eq_none.mp hb
    rw [bumpF_length] at this
    omega
  | some nub =>
    have hcond : a.num_input ≤ n ∧ n < a.total_num_neurons := ⟨h1, h2⟩
    have hsome : (actPhase2 a.num_input a.total_num_neurons 0
        (bumpF a.neurons a.neurons a.connections)).get? n =
        some ⟨0, sigmoid_AF nub.input_sum, nub.type⟩ := by
      rw [get?_actPhase2, hb]
      simp [hcond]
    rw [inAt_eq_some hsome]

theorem bump_sum_eq (a : ANN)
    (hsrc : ∀ c ∈ a.connections, c.source_neuron_idx < a.num_input)
    (i : ℕ) (hiL : i < a.neurons.length)
    (h0a : inAt a.neurons i = 0)
    (h0A : inAt (activate a).neurons i = 0) :
    inAt (bumpF (activate a).neurons (activate a).neurons
        (activate a).connections) i =
    inAt (bumpF a.neurons a.neurons a.connections) i := by
  have hLA : (activate a).neurons.length = a.neurons.length :=
    activate_neurons_length a
  rw [inAt_bumpF _ _ _ _ (by omega), inAt_bumpF _ _ _ _ hiL, h0a, h0A]
  simp only [zero_add]
  rw [activate_connections]
  unfold dataOf
  rw [List.map_map]
  apply congrArg List.sum
  apply List.map_congr_left
  intro c hc
  simp only [Function.comp]
  by_cases ht : c.target_neuron_idx = i
  · simp only [ht, if_pos]
    rw [outAt_activate_of_lt a c.source_neuron_idx (Or.inl (hsrc c hc))]
  · simp only [if_neg ht]

/-- C5 (amended): when every connection's source is an Input neuron
(a single-hop feedforward topology) and the non-input neurons'
`input_sum` accumulators are 0 (as after construction or any previous
`activate`), two consecutive `activate` calls with unchanged inputs and
weights produce identical output values.  For deeper strictly
feedforward topologies (hidden→output edges) the two calls can differ,
because the single synchronous pass feeds each connection its source's
previous-pass output — see `activate_consecutive_cex`. -/
theorem activate_consecutive (a : ANN)
    (hsrc : ∀ c ∈ a.connections, c.source_neuron_idx < a.num_input)
    (hsum : ∀ n, a.num_input ≤ n → ∀ nu, a.neurons.get? n = some nu →
      nu.input_sum = 0) :
    getOutput (activate (activate a)) = getOutput (activate a) := by
  obtain ⟨e1, _, _, e4, e5, _⟩ := activate_counts a
  have houts : ∀ i, outAt (activate (activate a)).neurons i =
      outAt (activate a).neurons i := by
    intro i
    by_cases hcase : a.num_input ≤ i ∧ i < a.total_num_neurons
    · by_cases hiL : i < a.neurons.length
      · have hA1 := outAt_activate_of_active a i hcase.1 hcase.2 hiL
        have hA2 := outAt_activate_of_active (activate a) i
          (by omega) (by omega)
          (by rw [activate_neurons_length]; exact hiL)
        have h0a : inAt a.neurons i = 0 := by
          cases hg : a.neurons.get? i with
          | none =>
            have := List.get?_eq_none.mp hg
            omega
          | some nu =>
            rw [inAt_eq_some hg]
            exact hsum i hcase.1 nu hg
        have h0A : inAt (activate a).neurons i = 0 :=
          inAt_activate_zero a i hcase.1 hcase.2 hiL
        rw [hA1, hA2, bump_sum_eq a hsrc i hiL h0a h0A]
      · have hL2 : (activate (activate a)).neurons.length =
            a.neurons.length := by
          rw [activate_neurons_length, activate_neurons_length]
        have hL1 : (activate a).neurons.length = a.neurons.length :=
          activate_neurons_length a
        rw [outAt_eq_none (List.get?_eq_none.mpr (by omega)),
          outAt_eq_none (List.get?_eq_none.mpr (by omega))]
    · exact outAt_activate_of_lt (activate a) i (by omega)
  unfold getOutput
  rw [e4, e5]
  exact List.map_congr_left fun n _ => houts n

/-- Witness for `activate_consecutive` on `net101` (its single
connection's source is the input neuron). -/
theorem activate_consecutive_witness :
    getOutput (activate (activate net101)) = getOutput (activate net101)
    := by
  apply activate_consecutive net101
  · intro c hc
    simp only [net101, List.mem_cons, List.not_mem_nil, or_false] at hc
    subst hc
    decide
  · intro n hn nu h
    match n, h with
    | 1, h =>
      have : nu = Neuron.make .OUTPUT_N := by
        simpa [net101] using h.symm
      rw [this]
      rfl

/-- C5 counterexample: `net111` is strictly feedforward (every edge
goes from a lower to a higher neuron index, so there are no recurrent
or mis-ordered edges), its inputs and weights are untouched between
calls, yet the second `activate` produces a different output value
than the first: the first pass gives the output neuron the hidden
neuron's stale (pre-pass) output. -/
theorem activate_consecutive_cex :
    (∀ c ∈ net111.connections,
      c.source_neuron_idx < c.target_neuron_idx) ∧
    (activate net111).connections.map Connection.weight =
      net111.connections.map Connection.weight ∧
    outAt (activate net111).neurons 0 = outAt net111.neurons 0 ∧
    getOutput (activate (activate net111)) ≠ getOutput (activate net111)
    := by
  refine ⟨?_, ?_, ?_, ?_⟩
  · intro c hc
    simp only [net111, List.mem_cons, List.not_mem_nil, or_false] at hc
    rcases hc with rfl | rfl <;> norm_num
  · rw [activate_connections]
    simp [dataOf]
  · exact outAt_activate_of_lt net111 0 (Or.inl (by norm_num [net111]))
  · have hs0 : sigmoid_AF 0 = 1 / 2 := by
      rw [sigmoid_AF, if_neg (by norm_num), if_neg (by norm_num)]
      rw [neg_zero, Real.exp_zero]
      norm_num
    have h1 : getOutput (activate net111) = [sigmoid_AF 0] := by
      simp only [net111, Neuron.make, activate, List.foldl_cons,
        List.foldl_nil, connStep, outAt, addAt, actPhase2, getOutput,
        List.get?]
      norm_num [actPhase2, getOutput, outAt, List.range']
    have h2 : getOutput (activate (activate net111)) =
        [sigmoid_AF (sigmoid_AF 0)] := by
      have hact : activate net111 = { net111 with
          neurons := [Neuron.make .INPUT_N,
            ⟨0, sigmoid_AF 0, .HIDDEN_N⟩, ⟨0, sigmoid_AF 0, .OUTPUT_N⟩]
          connections := [⟨0, 1, 1, 0⟩, ⟨1, 2, 1, 0⟩] } := by
        simp only [net111, Neuron.make, activate, List.foldl_cons,
          List.foldl_nil, connStep, outAt, addAt, actPhase2,
          List.get?, dataOf]
        norm_num
      rw [hact]
      simp only [net111, Neuron.make, activate, List.foldl_cons,
        List.foldl_nil, connStep, outAt, addAt, actPhase2, getOutput,
        List.get?]
      norm_num [actPhase2, getOutput, outAt, List.range']
    rw [h1, h2, hs0]
    have he1 : Real.exp (-(1 / 2 : ℝ)) < 1 :=
      Real.exp_lt_one_iff.mpr (by norm_num)
    have he0 : (0 : ℝ) < Real.exp (-(1 / 2 : ℝ)) := Real.exp_pos _
    have hs : sigmoid_AF (1 / 2) = 1 / (1 + Real.exp (-(1 / 2 : ℝ)))
        := by
      rw [sigmoid_AF, if_neg (by norm_num), if_neg (by norm_num)]
    rw [hs]
    intro heq
    have heq' : 1 / (1 + Real.exp (-(1 / 2 : ℝ))) = 1 / 2 :=
      List.singleton_injective heq
    have hden : (0 : ℝ) < 1 + Real.exp (-(1 / 2 : ℝ)) := by linarith
    rw [div_eq_div_iff (ne_of_gt hden) (by norm_num : (2 : ℝ) ≠ 0)]
      at heq'
    linarith

/-! ## Claim C4: invariants of reachable networks -/

theorem toUShort_lt (n : ℤ) : toUShort n < 65536 := by
  unfold toUShort
  omega

theorem construct_inv (nn cs ct : List ℤ) (cw : List ℝ) (a : ANN)
    (h : construct nn cs ct cw = some a) :
    a.num_input = countsIn nn ∧ a.num_hidden = countsHid nn ∧
    a.num_output = countsOut nn ∧
    a.num_iPLUSh = (countsIn nn + countsHid nn) % 65536 ∧
    a.total_num_neurons = constructTotal nn ∧
    a.neurons = (List.range (constructTotal nn)).map (fun n =>
      Neuron.make (typeForIndex (countsIn nn)
        ((countsIn nn + countsHid nn) % 65536) n)) ∧
    a.total_num_connections = cs.length % 65536 ∧
    a.connections.length = cs.length % 65536 ∧
    ∀ c ∈ a.connections,
      c.source_neuron_idx < 65536 ∧ c.target_neuron_idx < 65536 := by
  unfold construct at h
  split at h
  · simp at h
  split at h
  · simp at h
  split at h
  · simp at h
  injection h with h
  subst h
  refine ⟨rfl, rfl, rfl, rfl, rfl, rfl, rfl, by simp, ?_⟩
  intro c hc
  obtain ⟨k, _, rfl⟩ := List.mem_map.mp hc
  exact ⟨toUShort_lt _, toUShort_lt _⟩

theorem Inv_construct (nn cs ct : List ℤ) (cw : List ℝ) (a : ANN)
    (h : construct nn cs ct cw = some a)
    (hsum : countsIn nn + countsHid nn + countsOut nn < 65536) :
    Inv a := by
  obtain ⟨e1, e2, e3, e4, e5, e6, e7, e8, e9⟩ :=
    construct_inv nn cs ct cw a h
  have hih : (countsIn nn + countsHid nn) % 65536 =
      countsIn nn + countsHid nn := Nat.mod_eq_of_lt (by omega)
  have htot : constructTotal nn =
      countsIn nn + countsHid nn + countsOut nn := by
    unfold constructTotal
    rw [hih]
    exact Nat.mod_eq_of_lt hsum
  refine ⟨by omega, by omega, ?_, by omega, by omega, by omega, by omega,
    by omega, ?_, ?_, e9, ?_⟩
  · rw [e6, e5]
    simp
  · rw [e7]
    exact Nat.mod_lt _ (by norm_num)
  · rw [e7, e8]
  · intro n nu hnu
    rw [e6, List.get?_map] at hnu
    by_cases hn : n < constructTotal nn
    · rw [List.get?_range hn] at hnu
      have hmk : Neuron.make (typeForIndex (countsIn nn)
          ((countsIn nn + countsHid nn) % 65536) n) = nu := by
        simpa using hnu
      rw [e1, e4, ← hmk]
      rfl
    · rw [List.get?_eq_none.mpr (by simpa using hn)] at hnu
      simp at hnu

theorem readConns_take (k : ℕ) (cs : List Connection) (rest : List Tok)
    (hk : k ≤ cs.length)
    (h : ∀ c ∈ cs,
      c.source_neuron_idx < 65536 ∧ c.target_neuron_idx < 65536) :
    readConns k
      ((cs.flatMap fun c =>
        [Tok.int c.source_neuron_idx, Tok.int c.target_neuron_idx,
          Tok.real (roundSig6 c.weight)]) ++ rest) =
    some ((cs.take k).map fun c =>
      ⟨c.source_neuron_idx, c.target_neuron_idx, roundSig6 c.weight, 0⟩,
      ((cs.drop k).flatMap fun c =>
        [Tok.int c.source_neuron_idx, Tok.int c.target_neuron_idx,
          Tok.real (roundSig6 c.weight)]) ++ rest) := by
  induction k generalizing cs with
  | zero => simp [readConns]
  | succ k ih =>
    cases cs with
    | nil => simp at hk
    | cons c cs =>
      obtain ⟨hs, ht⟩ := h c (List.mem_cons_self c cs)
      have hrest := ih cs (by simpa using hk)
        fun c' hc' => h c' (List.mem_cons_of_mem c hc')
      have hstream : ((c :: cs).flatMap fun c =>
          [Tok.int c.source_neuron_idx, Tok.int c.target_neuron_idx,
            Tok.real (roundSig6 c.weight)]) ++ rest =
          Tok.int (c.source_neuron_idx : ℤ) ::
          Tok.int (c.target_neuron_idx : ℤ) :: Tok.real (roundSig6 c.weight) ::
          ((cs.flatMap fun c =>
            [Tok.int c.source_neuron_idx, Tok.int c.target_neuron_idx,
              Tok.real (roundSig6 c.weight)]) ++ rest) := by
        simp
      rw [hstream]
      show (readUShort _).bind _ = _
      rw [readUShort_int _ hs, Option.some_bind]
      rw [readUShort_int _ ht, Option.some_bind]
      rw [show readReal (Tok.real (roundSig6 c.weight) ::
          ((cs.flatMap fun c =>
            [Tok.int c.source_neuron_idx, Tok.int c.target_neuron_idx,
              Tok.real (roundSig6 c.weight)]) ++ rest)) =
          some (roundSig6 c.weight, (cs.flatMap fun c =>
            [Tok.int c.source_neuron_idx, Tok.int c.target_neuron_idx,
              Tok.real (roundSig6 c.weight)]) ++ rest) from rfl, Option.some_bind]
      rw [hrest, Option.some_bind]
      simp [Connection.make, toUShort_coe _ hs, toUShort_coe _ ht]

/-- Round trip of `serialize` into `deserialize` for any network whose
neuron vector has the recorded size and whose recorded connection
count does not exceed the connection vector (the recorded count of
connections is read back; surplus serialized connections are written
but never read). -/
theorem deserialize_serialize_take (a : ANN)
    (hn : a.neurons.length = a.total_num_neurons)
    (hc : a.total_num_connections ≤ a.connections.length)
    (h1 : a.num_input < 65536) (h2 : a.num_hidden < 65536)
    (h3 : a.num_output < 65536) (h4 : a.num_iPLUSh < 65536)
    (h5 : a.total_num_neurons < 65536)
    (h6 : a.total_num_connections < 65536)
    (h7 : ∀ c ∈ a.connections,
      c.source_neuron_idx < 65536 ∧ c.target_neuron_idx < 65536) :
    deserialize (serialize a) = some
      { a with
        neurons := a.neurons.map fun nu => Neuron.make nu.type
        connections :=
          ((a.connections.take a.total_num_connections).map fun c =>
            ⟨c.source_neuron_idx, c.target_neuron_idx, roundSig6 c.weight, 0⟩) }
    := by
  have hstream : serialize a =
      Tok.int (a.num_input : ℤ) :: Tok.int (a.num_hidden : ℤ) ::
      Tok.int (a.num_output : ℤ) :: Tok.int (a.num_iPLUSh : ℤ) ::
      Tok.int (a.total_num_neurons : ℤ) ::
      ((a.neurons.map fun nu => Tok.int (typeCode nu.type)) ++
        (Tok.int (a.total_num_connections : ℤ) ::
          (a.connections.flatMap fun c =>
            [Tok.int c.source_neuron_idx, Tok.int c.target_neuron_idx,
              Tok.real (roundSig6 c.weight)]))) := by
    simp [serialize]
  rw [hstream]
  rw [show (Tok.int (a.total_num_connections : ℤ) ::
      (a.connections.flatMap fun c =>
        [Tok.int c.source_neuron_idx, Tok.int c.target_neuron_idx,
          Tok.real (roundSig6 c.weight)])) =
      [Tok.int (a.total_num_connections : ℤ)] ++
      ((a.connections.flatMap fun c =>
        [Tok.int c.source_neuron_idx, Tok.int c.target_neuron_idx,
          Tok.real (roundSig6 c.weight)]) ++ []) from by simp]
  unfold deserialize
  rw [readUShort_int _ h1, Option.some_bind]
  rw [readUShort_int _ h2, Option.some_bind]
  rw [readUShort_int _ h3, Option.some_bind]
  rw [readUShort_int _ h4, Option.some_bind]
  rw [readUShort_int _ h5, Option.some_bind]
  rw [← hn, readNeurons_roundtrip, Option.some_bind]
  simp only [List.singleton_append]
  rw [readUShort_int _ h6, Option.some_bind]
  rw [readConns_take _ _ _ hc h7, Option.some_bind]

/-- Types of neurons are untouched by `activate`. -/
theorem type_get?_activate (a : ANN) (n : ℕ) :
    ((activate a).neurons.get? n).map Neuron.type =
    (a.neurons.get? n).map Neuron.type := by
  rw [activate_neurons, get?_actPhase2]
  have hb := type_get?_bumpF a.neurons a.connections a.neurons n
  cases hg : (bumpF a.neurons a.neurons a.connections).get? n with
  | none =>
    rw [hg] at hb
    cases hg2 : a.neurons.get? n with
    | none => simp
    | some nu =>
      rw [hg2] at hb
      simp at hb
  | some nub =>
    rw [hg] at hb
    cases hg2 : a.neurons.get? n with
    | none =>
      rw [hg2] at hb
      simp at hb
    | some nu =>
      rw [hg2] at hb
      simp at hb
      by_cases hcond : a.num_input ≤ n ∧ n < a.total_num_neurons
      · simp [hcond, hb]
      · simp [hcond, hb]

theorem Inv_fullyConnectFF (a : ANN) (h : Inv a) :
    Inv (fullyConnectFF a) := by
  obtain ⟨e1, e2, e3, e4, e5, e6, e7, e8, _, _, _, e12⟩ := h
  have hr1 : a.num_iPLUSh - a.num_input = a.num_hidden := by omega
  have hr2 : a.total_num_neurons - a.num_iPLUSh = a.num_output := by
    omega
  have hlen : (fullyConnectFF a).connections.length =
      a.num_hidden * (a.num_input + a.num_output) := by
    show (((List.range a.num_input).flatMap fun i : ℕ =>
        (List.range' a.num_input (a.num_iPLUSh - a.num_input)).map
          fun h : ℕ => Connection.make i h 0) ++
      ((List.range' a.num_input (a.num_iPLUSh - a.num_input)).flatMap
        fun h : ℕ =>
        (List.range' a.num_iPLUSh
            (a.total_num_neurons - a.num_iPLUSh)).map fun o : ℕ =>
          Connection.make h o 0)).length = _
    rw [List.length_append,
      length_flatMap_const (List.range a.num_input) _ a.num_hidden
        (fun x _ => by simp [hr1]),
      length_flatMap_const (List.range' a.num_input
          (a.num_iPLUSh - a.num_input)) _ a.num_output
        (fun x _ => by simp [hr2]),
      List.length_range, List.length_range', hr1]
    ring
  refine ⟨e1, e2, e3, e4, e5, e6, e7, e8, ?_, ?_, ?_, e12⟩
  · exact Nat.mod_lt _ (by norm_num)
  · rw [hlen]
    exact Nat.mod_le _ _
  · intro c hc
    rcases List.mem_append.mp hc with hc | hc <;>
    · obtain ⟨x, hx, hcx⟩ := List.mem_flatMap.mp hc
      obtain ⟨y, hy, rfl⟩ := List.mem_map.mp hcx
      refine ⟨?_, ?_⟩
      · show toUShort (x : ℤ) < 65536
        exact toUShort_lt _
      · show toUShort (y : ℤ) < 65536
        exact toUShort_lt _

theorem Inv_randomizeW (a : ANN) (mn mx : ℝ) (rnd : ℕ → ℕ)
    (h : Inv a) : Inv (randomizeW a mn mx rnd).2 := by
  rcases le_or_lt mx mn with hge | hlt
  · rw [randomizeW_of_ge a mn mx rnd hge]
    exact h
  · rw [randomizeW_of_lt a mn mx rnd hlt]
    obtain ⟨e1, e2, e3, e4, e5, e6, e7, e8, e9, e10, e11, e12⟩ := h
    refine ⟨e1, e2, e3, e4, e5, e6, e7, e8, e9, ?_, ?_, e12⟩
    · show a.total_num_connections ≤
        (randWeights mn mx rnd 0 a.connections).length
      rw [randWeights_length]
      exact e10
    · intro c hc
      obtain ⟨c0, hc0, hs, ht⟩ :=
        randWeights_mem mn mx rnd a.connections 0 c hc
      rw [hs, ht]
      exact e11 c0 hc0

theorem Inv_setInput (a : ANN) (inputs : List ℝ) (h : Inv a) :
    Inv (setInput a inputs).2 := by
  by_cases hl : inputs.length = a.num_input
  · have h2 : setInput a inputs =
        (0, { a with neurons := setVals a.num_input inputs a.neurons })
        := by
      simp [setInput, hl]
    rw [h2]
    obtain ⟨e1, e2, e3, e4, e5, e6, e7, e8, e9, e10, e11, e12⟩ := h
    refine ⟨e1, e2, ?_, e4, e5, e6, e7, e8, e9, e10, e11, ?_⟩
    · show (setVals a.num_input inputs a.neurons).length = _
      rw [setVals_length]
      exact e3
    · intro n nu hnu
      rw [show ({ a with
          neurons := setVals a.num_input inputs a.neurons } :
          ANN).neurons = setVals a.num_input inputs a.neurons from rfl,
        get?_setVals a.num_input inputs a.neurons hl] at hnu
      cases hg : a.neurons.get? n with
      | none => rw [hg] at hnu; simp at hnu
      | some nu0 =>
        rw [hg] at hnu
        have e := e12 n nu0 hg
        by_cases hn : n < a.num_input
        · have : ({ nu0 with output := inputs.getD n 0 } : Neuron) = nu
              := by simpa [hn] using hnu
          rw [← this]
          exact e
        · have : nu0 = nu := by simpa [hn] using hnu
          rw [← this]
          exact e
  · have h2 : setInput a inputs = (-1, a) := by
      simp [setInput, hl]
    rw [h2]
    exact h

theorem Inv_activate (a : ANN) (h : Inv a) : Inv (activate a) := by
  obtain ⟨e1, e2, e3, e4, e5, e6, e7, e8, e9, e10, e11, e12⟩ := h
  refine ⟨e1, e2, ?_, e4, e5, e6, e7, e8, e9, ?_, ?_, ?_⟩
  · rw [activate_neurons_length]
    exact e3
  · rw [activate_connections]
    show a.total_num_connections ≤ (dataOf _ _).length
    unfold dataOf
    rw [List.length_map]
    exact e10
  · intro c hc
    rw [activate_connections] at hc
    obtain ⟨c0, hc0, rfl⟩ := List.mem_map.mp hc
    exact e11 c0 hc0
  · intro n nu hnu
    have ht := type_get?_activate a n
    rw [hnu] at ht
    cases hg : a.neurons.get? n with
    | none =>
      rw [hg] at ht
      simp at ht
    | some nu0 =>
      rw [hg] at ht
      simp at ht
      rw [ht]
      exact e12 n nu0 hg

theorem Inv_deserialize (a b : ANN) (h : Inv a)
    (hd : deserialize (serialize a) = some b) : Inv b := by
  obtain ⟨e1, e2, e3, e4, e5, e6, e7, e8, e9, e10, e11, e12⟩ := h
  rw [deserialize_serialize_take a e3 e10 e4 e5 e6 e7 e8 e9 e11]
    at hd
  injection hd with hd
  subst hd
  refine ⟨e1, e2, ?_, e4, e5, e6, e7, e8, e9, ?_, ?_, ?_⟩
  · show (a.neurons.map _).length = _
    rw [List.length_map]
    exact e3
  · show a.total_num_connections ≤ (List.map _ _).length
    rw [List.length_map, List.length_take]
    omega
  · intro c hc
    obtain ⟨c0, hc0, rfl⟩ := List.mem_map.mp hc
    exact e11 c0 (List.take_subset _ _ hc0)
  · intro n nu hnu
    rw [show ({ a with
        neurons := a.neurons.map fun nu => Neuron.make nu.type,
        connections :=
          ((a.connections.take a.total_num_connections).map fun c =>
            ⟨c.source_neuron_idx, c.target_neuron_idx, roundSig6 c.weight, 0⟩) } :
        ANN).neurons = a.neurons.map fun nu => Neuron.make nu.type
        from rfl, List.get?_map] at hnu
    cases hg : a.neurons.get? n with
    | none => rw [hg] at hnu; simp at hnu
    | some nu0 =>
      rw [hg] at hnu
      have : Neuron.make nu0.type = nu := by simpa using hnu
      rw [← this]
      exact e12 n nu0 hg

theorem Inv_of_ReachBounded (a : ANN) (h : ReachBounded a) : Inv a := by
  induction h with
  | ofConstruct nn cs ct cw a hc hsum => exact Inv_construct nn cs ct cw a hc hsum
  | ofFullyConnect a _ ih => exact Inv_fullyConnectFF a ih
  | ofRandomize a mn mx rnd _ ih => exact Inv_randomizeW a mn mx rnd ih
  | ofSetInput a inputs _ ih => exact Inv_setInput a inputs ih
  | ofActivate a _ ih => exact Inv_activate a ih
  | ofDeserialize a b _ hd ih => exact Inv_deserialize a b ih hd

/-- C4 (amended): for every network reachable through any sequence of
the operations — including restoration from a persisted stream — in
which each construction's interpreted counts sum below 2^16 (larger
counts silently wrap the `unsigned short int` fields and the property
fails, see `getOutput_truncation_cex`), `getOutput` returns a sequence
of length exactly `num_output`, namely the Output neurons' outputs in
neuron index order. -/
theorem getOutput_spec (a : ANN) (h : ReachBounded a) :
    (getOutput a).length = a.num_output ∧
    getOutput a = (a.neurons.drop a.num_iPLUSh).map Neuron.output ∧
    ∀ nu ∈ a.neurons.drop a.num_iPLUSh, nu.type = .OUTPUT_N := by
  obtain ⟨e1, e2, e3, _, _, _, _, _, _, _, _, e12⟩ :=
    Inv_of_ReachBounded a h
  have hout : a.total_num_neurons - a.num_iPLUSh = a.num_output := by
    omega
  refine ⟨by simp [getOutput, hout], ?_, ?_⟩
  · apply List.ext_get?
    intro i
    show ((List.range' a.num_iPLUSh
        (a.total_num_neurons - a.num_iPLUSh)).map
        fun n => outAt a.neurons n).get? i = _
    rw [hout, List.get?_map, List.get?_map]
    by_cases hi : i < a.num_output
    · rw [List.get?_range' _ _ hi]
      have hd : (a.neurons.drop a.num_iPLUSh).get? i =
          a.neurons.get? (a.num_iPLUSh + i) := by
        simp [List.get?_eq_getElem?, List.getElem?_drop]
      rw [hd]
      cases hg : a.neurons.get? (a.num_iPLUSh + i) with
      | none =>
        have := List.get?_eq_none.mp hg
        omega
      | some nu =>
        have hsome : outAt a.neurons (a.num_iPLUSh + i) = nu.output :=
          outAt_eq_some hg
        simp [hsome]
    · rw [List.get?_eq_none.mpr (by simp; omega),
        List.get?_eq_none.mpr (by simp; omega)]
      rfl
  · intro nu hnu
    obtain ⟨i, hi⟩ := List.mem_iff_get?.mp hnu
    have hd : (a.neurons.drop a.num_iPLUSh).get? i =
        a.neurons.get? (a.num_iPLUSh + i) := by
      simp [List.get?_eq_getElem?, List.getElem?_drop]
    rw [hd] at hi
    have := e12 (a.num_iPLUSh + i) nu hi
    rw [this]
    unfold typeForIndex
    rw [if_neg (by omega), if_neg (by omega)]

/-- Witness for `getOutput_spec` on the constructed 1-0-1 network. -/
theorem getOutput_spec_witness :
    (getOutput net101).length = net101.num_output :=
  (getOutput_spec net101
    (ReachBounded.ofConstruct [1, 1] [0] [1] [1] net101 rfl
      (by decide))).1

/-- C4 counterexample: `construct [60000, 0, 60000] [] [] []` is a
network reachable by a single constructor call, yet its
`total_num_neurons` field wraps to 54464 < 60000 = `num_iPLUSh`, so
`getOutput` returns the empty sequence while `num_output` is 60000. -/
theorem getOutput_truncation_cex :
    construct [60000, 0, 60000] [] [] [] = some bigNet ∧
    Reach bigNet ∧ bigNet.num_output = 60000 ∧
    (getOutput bigNet).length ≠ bigNet.num_output := by
  refine ⟨rfl, Reach.ofConstruct [60000, 0, 60000] [] [] [] bigNet rfl,
    rfl, ?_⟩
  show (List.map _ _).length ≠ _
  rw [List.length_map, List.length_range']
  show 54464 - 60000 ≠ 60000
  omega

end EvoFlexANN
